import Mathlib

/-!
Verification development for the openclaw-trace signal mining and rollup
pipeline. The Python sources `mine_signals.py` and `rollup_signals.py` are
shallowly embedded: Python `str` becomes `String`, Python `int` becomes `Int`
or `Nat` where the value is provably non-negative, Python `float` is modeled
as an exact rational (the float literals appearing in the sources, such as
0.5 and 0.62, are treated as the rationals they denote), JSON-like values
become the inductive `JVal`, and the few regular expressions are embedded as
an explicit backtracking matcher over a small regex AST that mirrors the
leftmost-match, ordered-alternation, greedy/lazy semantics of the Python
`re` module. Character classes such as Python whitespace are modeled by the
ASCII plus common Unicode sets listed below; `str.lower` is modeled on the
ASCII range, which covers every string handled by the claims.
-/

set_option maxRecDepth 10000

namespace OpenclawTrace

/-- Characters treated as whitespace by Python `str.strip` and `str.split`
(ASCII whitespace, the C1 separator controls, NEL, NBSP and the common
Unicode space code points). -/
def pySpaceChar (c : Char) : Bool :=
  let n := c.toNat
  n = 32 || n = 9 || n = 10 || n = 13 || n = 11 || n = 12 ||
  (28 ≤ n && n ≤ 31) || n = 133 || n = 160 || n = 0x1680 ||
  (0x2000 ≤ n && n ≤ 0x200a) || n = 0x2028 || n = 0x2029 ||
  n = 0x202f || n = 0x205f || n = 0x3000

/-- Characters at which Python `str.splitlines` breaks a line. -/
def pyLineBreakChar (c : Char) : Bool :=
  let n := c.toNat
  n = 10 || n = 13 || n = 11 || n = 12 || n = 28 || n = 29 || n = 30 ||
  n = 133 || n = 0x2028 || n = 0x2029

theorem lineBreak_isSpace (c : Char) (h : pyLineBreakChar c = true) :
    pySpaceChar c = true := by
  simp only [pyLineBreakChar, pySpaceChar, Bool.or_eq_true, decide_eq_true_eq,
    Bool.and_eq_true] at h ⊢
  omega

/-- Left strip on a character list. -/
def stripLeftList (l : List Char) : List Char := l.dropWhile pySpaceChar

/-- Right strip on a character list. -/
def stripRightList (l : List Char) : List Char :=
  (l.reverse.dropWhile pySpaceChar).reverse

/-- Both-sided strip on a character list. -/
def stripList (l : List Char) : List Char := stripRightList (stripLeftList l)

/-- Python `str.strip()` with no arguments. -/
def pyStrip (s : String) : String := ⟨stripList s.data⟩

/-- Python `str.lstrip()`. -/
def pyLStrip (s : String) : String := ⟨stripLeftList s.data⟩

/-- Python `str.rstrip()`. -/
def pyRStrip (s : String) : String := ⟨stripRightList s.data⟩

/-- Python `str.lower`, modeled on the ASCII range. -/
def pyLower (s : String) : String := ⟨s.data.map Char.toLower⟩

/-- Python slice `s[:k]` for an `int` bound `k`, including the semantics of
negative bounds, which count from the end of the string. -/
def pySliceTo (s : String) (k : Int) : String :=
  if k < 0 then ⟨s.data.take ((s.data.length : Int) + k).toNat⟩
  else ⟨s.data.take k.toNat⟩

/-- Python slice `l[:k]` on lists, with negative-bound semantics. -/
def pyTake {α : Type} (l : List α) (k : Int) : List α :=
  if k < 0 then l.take ((l.length : Int) + k).toNat else l.take k.toNat

/-- Substring test on character lists: the Python `in` operator for `str`. -/
def inList (needle : List Char) : List Char → Bool
  | [] => needle.isEmpty
  | c :: t => needle.isPrefixOf (c :: t) || inList needle t

/-- Python `needle in hay` for strings. -/
def pyIn (needle hay : String) : Bool := inList needle.data hay.data

theorem inList_infix_iff (n h : List Char) : inList n h = true ↔ n <:+: h := by
  induction h with
  | nil =>
    simp [inList, List.isEmpty_iff, List.infix_nil]
  | cons c t ih =>
    simp only [inList, Bool.or_eq_true, ih]
    constructor
    · rintro (hp | hi)
      · exact (List.isPrefixOf_iff_prefix.mp hp).isInfix
      · exact hi.trans (List.suffix_cons c t).isInfix
    · intro hinf
      rcases List.infix_cons_iff.mp hinf with hp | hi
      · exact Or.inl (List.isPrefixOf_iff_prefix.mpr hp)
      · exact Or.inr hi

theorem pyIn_infix_iff (n h : String) : pyIn n h = true ↔ n.data <:+: h.data :=
  inList_infix_iff n.data h.data

theorem pyIn_self (s : String) : pyIn s s = true :=
  (pyIn_infix_iff s s).mpr (List.infix_rfl)

/-- After a line break at `c`, skip the second half of a CRLF pair. -/
def crSkip (c : Char) (t : List Char) : List Char :=
  if c = '\r' then
    match t with
    | '\n' :: t4 => t4
    | _ => t
  else t

/-- Python `str.splitlines`, implemented over the line-break set above with
the CRLF pair treated as a single break. The fuel exceeds the input length,
so the zero-fuel arm is unreachable. -/
def splitlinesGo : Nat → List Char → List Char → List (List Char)
  | 0, _, cur => [cur.reverse]
  | _ + 1, [], cur => [cur.reverse]
  | fuel + 1, c :: t, cur =>
    if pyLineBreakChar c then
      cur.reverse ::
        (if (crSkip c t).isEmpty then [] else splitlinesGo fuel (crSkip c t) [])
    else splitlinesGo fuel t (c :: cur)

def pySplitlines (s : String) : List String :=
  if s.data.isEmpty then []
  else (splitlinesGo (s.data.length + 1) s.data []).map fun l => ⟨l⟩

/-- Python `str.split()` with no separator: whitespace runs separate tokens,
and empty tokens are dropped. -/
def pySplitWs (s : String) : List String :=
  ((s.data.splitOnP pySpaceChar).filter fun w => !w.isEmpty).map fun l => ⟨l⟩

/-!
A small backtracking regular-expression engine mirroring the semantics of the
Python `re` module for the patterns appearing in the sources: leftmost match,
ordered alternation, greedy and lazy quantifiers, and word boundaries. The
matcher is written in continuation-passing style; quantifier iteration
carries a fuel bounded by the length of the remaining input plus one, which
is exact for every pattern used here because every quantified subpattern
consumes at least one character per iteration.
-/

/-- Regex AST. `cls` holds an executable character-class predicate. `rep`
is the bounded repetition `a{lo,hi}` with `hi = none` meaning unbounded,
and `greedy = false` giving the lazy variant. `wb` is the word boundary. -/
inductive RE where
  | eps
  | chr (c : Char)
  | cls (p : Char → Bool)
  | cat (a b : RE)
  | alt (a b : RE)
  | rep (a : RE) (lo : Nat) (hi : Option Nat) (greedy : Bool)
  | wb

/-- Structural weight used as the termination measure of the matcher. -/
def reWeight : RE → Nat
  | .eps => 1
  | .chr _ => 1
  | .cls _ => 1
  | .wb => 1
  | .cat a b => reWeight a + reWeight b + 1
  | .alt a b => reWeight a + reWeight b + 1
  | .rep a _ _ _ => reWeight a + 2

/-- Python word character, as used by the `\b` assertion (ASCII model). -/
def reWordChar (c : Char) : Bool := c.isAlphanum || c = '_'

/-- Word-boundary test given the previous character and the rest of input. -/
def reAtBoundary (prev : Option Char) (rest : List Char) : Bool :=
  let l := match prev with | none => false | some c => reWordChar c
  let r := match rest with | [] => false | c :: _ => reWordChar c
  l != r

def hiDec : Option Nat → Option Nat
  | none => none
  | some n => some (n - 1)

/-- Run regex `r` on input `s` with previous character `p`, calling the
continuation `k` on every way to match a prefix of `s`, in the priority
order used by the Python `re` backtracking engine; the first success wins.
The fuel bounds the call depth; `reFuel` below is generous enough for every
pattern in the sources, whose quantified subpatterns all consume at least
one character per iteration, so the zero-fuel arm is never taken. -/
def reRun : Nat → RE →
    (List Char → Option Char → Option (List Char × Option Char)) →
    List Char → Option Char → Option (List Char × Option Char)
  | 0, _, _, _, _ => none
  | fuel + 1, r, k, s, p =>
    match r with
    | .eps => k s p
    | .chr c =>
      match s with
      | [] => none
      | x :: xs => if x = c then k xs (some x) else none
    | .cls f =>
      match s with
      | [] => none
      | x :: xs => if f x then k xs (some x) else none
    | .cat a b => reRun fuel a (fun s2 p2 => reRun fuel b k s2 p2) s p
    | .alt a b => (reRun fuel a k s p) <|> (reRun fuel b k s p)
    | .wb => if reAtBoundary p s then k s p else none
    | .rep a lo hi g =>
      match lo with
      | l + 1 =>
        reRun fuel a (fun s2 p2 => reRun fuel (.rep a l (hiDec hi) g) k s2 p2) s p
      | 0 =>
        if hi = some 0 then k s p
        else if g then
          (reRun fuel a (fun s2 p2 => reRun fuel (.rep a 0 (hiDec hi) g) k s2 p2) s p)
            <|> k s p
        else
          (k s p) <|>
            (reRun fuel a (fun s2 p2 => reRun fuel (.rep a 0 (hiDec hi) g) k s2 p2) s p)

/-- Call-depth fuel for one match attempt. -/
def reFuel (r : RE) (s : List Char) : Nat :=
  (reWeight r + 1) * (2 * s.length + 10)

/-- Try to match `r` at the current position: returns the rest of the input
and the last consumed character on success. -/
def reMatchAt (r : RE) (s : List Char) (p : Option Char) :
    Option (List Char × Option Char) :=
  reRun (reFuel r s) r (fun rest q => some (rest, q)) s p

/-- One pass of `re.sub(r, mask, s)`: scan left to right, replacing each
non-overlapping match by `mask`. Zero-width matches insert the mask and then
copy one character, as the Python scanner does. The fuel is the remaining
input length plus one, which the scan never exhausts. -/
def reSubGo (r : RE) (mask : List Char) : Nat → Option Char → List Char → List Char
  | 0, _, s => s
  | _ + 1, p, [] =>
    match reMatchAt r [] p with
    | some _ => mask
    | none => []
  | fuel + 1, p, s@(c :: rest) =>
    match reMatchAt r s p with
    | some (s2, q) =>
      if s2.length = s.length then mask ++ c :: reSubGo r mask fuel (some c) rest
      else mask ++ reSubGo r mask fuel q s2
    | none => c :: reSubGo r mask fuel (some c) rest

/-- Python `re.sub(pattern, mask, s)` for the patterns used in the sources. -/
def pyReSub (r : RE) (mask : String) (s : String) : String :=
  ⟨reSubGo r mask.data (s.data.length + 1) none s.data⟩

def reSearchGo (r : RE) : Nat → Option Char → List Char → Bool
  | 0, p, s => (reMatchAt r s p).isSome
  | fuel + 1, p, s =>
    if (reMatchAt r s p).isSome then true
    else match s with
      | [] => false
      | c :: rest => reSearchGo r fuel (some c) rest

/-- Python `re.search(pattern, s) is not None`. -/
def pyReSearch (r : RE) (s : String) : Bool :=
  reSearchGo r (s.data.length + 1) none s.data

/-- Literal string as a regex. -/
def rstr (s : String) : RE := s.data.foldr (fun c acc => .cat (.chr c) acc) .eps

def rcats (l : List RE) : RE := l.foldr .cat .eps

def raltl : List RE → RE
  | [] => .cls fun _ => false
  | [r] => r
  | r :: rs => .alt r (raltl rs)

def rplus (r : RE) : RE := .rep r 1 none true

def rstar (r : RE) : RE := .rep r 0 none true

def ropt (r : RE) : RE := .rep r 0 (some 1) true

def rdigit : RE := .cls Char.isDigit

def rnonspace : RE := .cls fun c => !pySpaceChar c

/-!
SHA-256, embedded as the standard algorithm computed by `hashlib.sha256` in
`_hash_str` and `_hash` of the sources, over UTF-8 encoded input, producing
the lowercase hex digest.
-/

def m32 : Nat := 4294967296

def add32 (a b : Nat) : Nat := (a + b) % m32

def rotr32 (n x : Nat) : Nat := ((x >>> n) ||| (x <<< (32 - n))) % m32

def not32 (x : Nat) : Nat := 4294967295 ^^^ x

def shaCh (x y z : Nat) : Nat := (x &&& y) ^^^ (not32 x &&& z)

def shaMaj (x y z : Nat) : Nat := (x &&& y) ^^^ (x &&& z) ^^^ (y &&& z)

def bSig0 (x : Nat) : Nat := rotr32 2 x ^^^ rotr32 13 x ^^^ rotr32 22 x

def bSig1 (x : Nat) : Nat := rotr32 6 x ^^^ rotr32 11 x ^^^ rotr32 25 x

def sSig0 (x : Nat) : Nat := rotr32 7 x ^^^ rotr32 18 x ^^^ (x >>> 3)

def sSig1 (x : Nat) : Nat := rotr32 17 x ^^^ rotr32 19 x ^^^ (x >>> 10)

def k256 : List Nat :=
  [1116352408, 1899447441, 3049323471, 3921009573, 961987163,
   1508970993, 2453635748, 2870763221, 3624381080, 310598401,
   607225278, 1426881987, 1925078388, 2162078206, 2614888103,
   3248222580, 3835390401, 4022224774, 264347078, 604807628,
   770255983, 1249150122, 1555081692, 1996064986, 2554220882,
   2821834349, 2952996808, 3210313671, 3336571891, 3584528711,
   113926993, 338241895, 666307205, 773529912, 1294757372,
   1396182291, 1695183700, 1986661051, 2177026350, 2456956037,
   2730485921, 2820302411, 3259730800, 3345764771, 3516065817,
   3600352804, 4094571909, 275423344, 430227734, 506948616,
   659060556, 883997877, 958139571, 1322822218, 1537002063,
   1747873779, 1955562222, 2024104815, 2227730452, 2361852424,
   2428436474, 2756734187, 3204031479, 3329325298]

def h256 : List Nat :=
  [1779033703, 3144134277, 1013904242, 2773480762,
   1359893119, 2600822924, 528734635, 1541459225]

/-- Big-endian byte expansion of `n` into `k` bytes. -/
def toBytesBE (k n : Nat) : List Nat :=
  (List.range k).map fun i => (n >>> (8 * (k - 1 - i))) % 256

def sha256Pad (msg : List Nat) : List Nat :=
  let L := msg.length
  let padLen := (64 - ((L + 9) % 64)) % 64
  msg ++ [0x80] ++ List.replicate padLen 0 ++ toBytesBE 8 (L * 8)

def chunk64Go : Nat → List Nat → List (List Nat)
  | 0, _ => []
  | fuel + 1, l => if l.isEmpty then [] else l.take 64 :: chunk64Go fuel (l.drop 64)

def chunk64 (l : List Nat) : List (List Nat) := chunk64Go (l.length + 1) l

def wordsOfBlock (b : List Nat) : List Nat :=
  (List.range 16).map fun i =>
    (b.getD (4 * i) 0) <<< 24 + (b.getD (4 * i + 1) 0) <<< 16 +
    (b.getD (4 * i + 2) 0) <<< 8 + b.getD (4 * i + 3) 0

def scheduleStep (w : List Nat) : List Nat :=
  let i := w.length
  w ++ [(sSig1 (w.getD (i - 2) 0) + w.getD (i - 7) 0 +
         sSig0 (w.getD (i - 15) 0) + w.getD (i - 16) 0) % m32]

def scheduleExtend : List Nat → Nat → List Nat
  | w, 0 => w
  | w, k + 1 => scheduleExtend (scheduleStep w) k

def shaRound (st : List Nat) (wi ki : Nat) : List Nat :=
  match st with
  | [a, b, c, d, e, f, g, h] =>
    let t1 := (h + bSig1 e + shaCh e f g + ki + wi) % m32
    let t2 := (bSig0 a + shaMaj a b c) % m32
    [(t1 + t2) % m32, a, b, c, (d + t1) % m32, e, f, g]
  | other => other

def shaCompress (h : List Nat) (block : List Nat) : List Nat :=
  let w := scheduleExtend (wordsOfBlock block) 48
  let st := (List.range 64).foldl
    (fun st i => shaRound st (w.getD i 0) (k256.getD i 0)) h
  List.zipWith add32 h st

def sha256Words (msg : List Nat) : List Nat :=
  (chunk64 (sha256Pad msg)).foldl shaCompress h256

def hexDigitChar (d : Nat) : Char :=
  if d < 10 then Char.ofNat (48 + d) else Char.ofNat (87 + d)

def wordHex (n : Nat) : List Char :=
  (List.range 8).map fun i => hexDigitChar ((n >>> (4 * (7 - i))) % 16)

/-- UTF-8 encoding of one character, as a list of byte values. -/
def utf8Char (c : Char) : List Nat :=
  let n := c.toNat
  if n < 0x80 then [n]
  else if n < 0x800 then [0xc0 ||| (n >>> 6), 0x80 ||| (n &&& 63)]
  else if n < 0x10000 then
    [0xe0 ||| (n >>> 12), 0x80 ||| ((n >>> 6) &&& 63), 0x80 ||| (n &&& 63)]
  else
    [0xf0 ||| (n >>> 18), 0x80 ||| ((n >>> 12) &&& 63),
     0x80 ||| ((n >>> 6) &&& 63), 0x80 ||| (n &&& 63)]

def utf8Bytes (s : String) : List Nat :=
  s.data.foldr (fun c acc => utf8Char c ++ acc) []

/-- `hashlib.sha256(s.encode("utf-8")).hexdigest()`, the body of
`_hash_str` in `mine_signals.py` and `_hash` in `rollup_signals.py`. -/
def hash_str (s : String) : String :=
  ⟨(sha256Words (utf8Bytes s)).foldr (fun w acc => wordHex w ++ acc) []⟩

/-- Known test vector checking the SHA-256 embedding. -/
theorem sha256_vector_abc :
    hash_str "abc" = "ba7816bf8f01cfea414140de5dae2223b00361a396177a9cb410ff61f20015ad" := by
  decide

/-!
The dedupe seed of `_validate_item`: the `json.dumps` serialization, with
sorted keys and default separators, of the object holding session id, kind,
summary and the validated evidence quotes. The four fixed keys are written
in their sorted order. String values are escaped exactly as `json.dumps`
with `ensure_ascii=False` escapes them: backslash, double quote, and control
characters below 0x20, the common ones by their short forms.
-/

def jsonEscapeChar (c : Char) : List Char :=
  if c = '"' then ['\\', '"']
  else if c = '\\' then ['\\', '\\']
  else if c = '\n' then ['\\', 'n']
  else if c = '\r' then ['\\', 'r']
  else if c = '\t' then ['\\', 't']
  else if c.toNat = 8 then ['\\', 'b']
  else if c.toNat = 12 then ['\\', 'f']
  else if c.toNat < 0x20 then
    ['\\', 'u', '0', '0', hexDigitChar (c.toNat / 16), hexDigitChar (c.toNat % 16)]
  else [c]

def jsonStr (s : String) : String :=
  ⟨'"' :: s.data.foldr (fun c acc => jsonEscapeChar c ++ acc) ['"']⟩

def joinCommaSp (l : List String) : String := ", ".intercalate l

def dedupe_seed (session_id kind summary : String) (quotes : List String) : String :=
  "\x7b\"kind\": " ++ jsonStr kind ++ ", \"quotes\": [" ++
    joinCommaSp (quotes.map jsonStr) ++ "], \"session_id\": " ++
    jsonStr session_id ++ ", \"summary\": " ++ jsonStr summary ++ "\x7d"

/-- The item identifier computed at the end of `_validate_item`. -/
def item_id_of (session_id kind summary : String) (quotes : List String) : String :=
  "sha256:" ++ hash_str (dedupe_seed session_id kind summary quotes)

/-!
JSON-like values, the event view record, and the configuration record of
`mine_signals.py`. Python distinguishes `bool`, `int` and `float`; `jnum`
holds a float modeled as an exact rational. Object fields are an ordered
association list with distinct keys, as in a Python dict.
-/

inductive JVal where
  | jnull
  | jbool (b : Bool)
  | jint (n : Int)
  | jnum (q : ℚ)
  | jstr (s : String)
  | jarr (xs : List JVal)
  | jobj (fields : List (String × JVal))

/-- Python `d.get(k)` on a dict-shaped value. -/
def jget (v : JVal) (k : String) : Option JVal :=
  match v with
  | .jobj fs => fs.lookup k
  | _ => none

def JVal.isObj : JVal → Bool
  | .jobj _ => true
  | _ => false

/-- Python `isinstance(x, (int, float))` together with the numeric value of
`float(x)`; note that `bool` is a subclass of `int` in Python. -/
def pyNumber : JVal → Option ℚ
  | .jbool b => some (if b then 1 else 0)
  | .jint n => some (n : ℚ)
  | .jnum q => some q
  | _ => none

/-- Python `isinstance(x, int)` together with the `int` value; `bool` passes. -/
def pyIntVal : JVal → Option Int
  | .jbool b => some (if b then 1 else 0)
  | .jint n => some n
  | _ => none

/-- The normalized per-event view built by `_build_event_views`. -/
structure EventView where
  i : Int
  ts : Option String
  role : String
  tool : Option String
  status : Option String
  error_code : Option String
  text : String
  text_truncated : Bool
  raw_shape : Option String
deriving DecidableEq, Repr, Inhabited

/-- The fields of `MineSignalsConfig` consumed by the chunker, the heuristic
extractor and the validator. -/
structure MineSignalsConfig where
  chunk_events : Int := 20
  chunk_overlap : Int := 4
  max_text_chars : Int := 800
  max_items_per_chunk : Int := 10
  max_evidence_per_item : Int := 2
  max_summary_chars : Int := 120
  max_quote_chars : Int := 200
deriving DecidableEq, Repr

def ALLOWED_KINDS : List String :=
  ["error", "user_frustration", "improvement_suggestion",
   "experiment_suggestion", "proactive_opportunity", "user_delight", "other"]

def ALLOWED_SEVERITIES : List String :=
  ["low", "medium", "high", "critical", "unknown"]

/-- `_truncate` of `mine_signals.py`, including the Python semantics of the
slice `text[: max_chars - 3]` when `max_chars - 3` is negative. -/
def pyTruncate (text : String) (max_chars : Int) : String × Bool :=
  let text := pyStrip text
  if max_chars ≤ 0 then ("", !text.isEmpty)
  else if (text.length : Int) ≤ max_chars then (text, false)
  else (pyRStrip (pySliceTo text (max_chars - 3)) ++ "...", true)

/-- `_quote_within` of `mine_signals.py`. -/
def quote_within (text quote : String) (max_chars : Int) : Option String :=
  let quote := pyStrip quote
  if quote.isEmpty then none
  else
    let quote := if (quote.length : Int) > max_chars
      then pyRStrip (pySliceTo quote max_chars) else quote
    if !quote.isEmpty && pyIn quote text then some quote else none

/-- `_normalize_tag` of `mine_signals.py`. -/
def normalize_tag : JVal → Option String
  | .jstr tag =>
    let t := pyLower (pyStrip tag)
    if t.isEmpty then none
    else some (if 64 < t.length then ⟨t.data.take 64⟩ else t)
  | _ => none

/-- The dict `{v.i: v for v in chunk["views"]}` built in `mine_signals`;
later entries overwrite earlier ones on key collision. -/
def event_map_get (views : List EventView) (k : Int) : Option EventView :=
  views.reverse.find? fun v => v.i == k

/-- One validated evidence entry. -/
structure Evidence where
  event_i : Int
  role : String
  field_path : String
  quote : String
deriving DecidableEq, Repr

/-- A validated signal, the result record of `_validate_item`. -/
structure Signal where
  item_id : String
  session_id : String
  file_hint : String
  chunk_id : String
  kind : String
  summary : String
  severity : String
  confidence : ℚ
  tags : List String
  span_start : Int
  span_end : Int
  evidence : List Evidence
  proposed_fix : Option JVal

/-- The body of the evidence loop in `_validate_item`: each entry must be a
dict with an `int` event index resolving in the event map and a string quote
surviving `_quote_within` against the resolved view text. -/
def validate_evidence_entry (views : List EventView) (cfg : MineSignalsConfig)
    (ev : JVal) : Option Evidence :=
  if !ev.isObj then none
  else
    match (jget ev "event_i").bind pyIntVal with
    | none => none
    | some ei =>
      match event_map_get views ei with
      | none => none
      | some view =>
        match jget ev "quote" with
        | some (.jstr q) =>
          match quote_within view.text q cfg.max_quote_chars with
          | none => none
          | some q2 =>
            let role := match jget ev "role" with
              | some (.jstr r) => r
              | _ => view.role
            let fp := match jget ev "field_path" with
              | some (.jstr f) => f
              | _ => "text"
            some ⟨ei, role, fp, q2⟩
        | _ => none

/-- Severity normalization in `_validate_item`. -/
def severity_of (item : JVal) : String :=
  let s := match jget item "severity" with
    | some (.jstr s) => s
    | _ => "unknown"
  let s := pyStrip (pyLower s)
  if ALLOWED_SEVERITIES.contains s then s else "unknown"

/-- Confidence normalization in `_validate_item`: default 0.5 when absent or
not a number, and reset to 0.5 when outside the unit interval. -/
def confidence_of (item : JVal) : ℚ :=
  let c := match (jget item "confidence").bind pyNumber with
    | none => (1 : ℚ) / 2
    | some q => q
  if c < 0 ∨ 1 < c then (1 : ℚ) / 2 else c

/-- Tag normalization in `_validate_item`. -/
def tags_of (item : JVal) : List String :=
  match jget item "tags" with
  | some (.jarr ts) => ts.filterMap normalize_tag
  | _ => []

/-- Forced incident tag in `_validate_item`. -/
def with_incident (summary : String) (validated : List Evidence)
    (tags : List String) : List String :=
  if pyIn "incident" (pyLower summary) ||
      validated.any (fun e => pyIn "incident" (pyLower e.quote)) then
    if tags.contains "incident" then tags else tags ++ ["incident"]
  else tags

/-- Proposed-fix passthrough in `_validate_item`. -/
def proposed_fix_of (item : JVal) : Option JVal :=
  match jget item "proposed_fix" with
  | some (.jobj fs) =>
    match fs.lookup "description" with
    | some (.jstr d) => if (pyStrip d).isEmpty then none else some (.jobj fs)
    | _ => none
  | _ => none

/-- Python `min` over a list of ints; the empty case is unreachable at the
call site. -/
def list_min_int : List Int → Int
  | [] => 0
  | x :: xs => xs.foldl min x

/-- Python `max` over a list of ints. -/
def list_max_int : List Int → Int
  | [] => 0
  | x :: xs => xs.foldl max x

/-- The record assembled at the end of `_validate_item`. -/
def build_signal (kind summary : String) (validated : List Evidence)
    (item : JVal) (session_id file_hint chunk_id : String) : Signal :=
  { item_id := item_id_of session_id kind summary (validated.map (·.quote))
    session_id := session_id
    file_hint := file_hint
    chunk_id := chunk_id
    kind := kind
    summary := summary
    severity := severity_of item
    confidence := confidence_of item
    tags := with_incident summary validated (tags_of item)
    span_start := list_min_int (validated.map (·.event_i))
    span_end := list_max_int (validated.map (·.event_i))
    evidence := validated
    proposed_fix := proposed_fix_of item }

/-- `_validate_item` of `mine_signals.py`. -/
def validate_item (item : JVal) (views : List EventView)
    (cfg : MineSignalsConfig)
    (session_id file_hint chunk_id : String) : Option Signal :=
  match item with
  | .jobj _ =>
    match jget item "kind" with
    | some (.jstr kind0) =>
      if ALLOWED_KINDS.contains (pyStrip kind0) then
        match jget item "summary" with
        | some (.jstr summary0) =>
          if (pyStrip summary0).isEmpty then none
          else
            match jget item "evidence" with
            | some (.jarr evs) =>
              if evs.isEmpty then none
              else
                if ((pyTake evs cfg.max_evidence_per_item).filterMap
                    (validate_evidence_entry views cfg)).isEmpty then none
                else
                  some (build_signal (pyStrip kind0)
                    (pyTruncate (pyStrip summary0) cfg.max_summary_chars).1
                    ((pyTake evs cfg.max_evidence_per_item).filterMap
                      (validate_evidence_entry views cfg))
                    item session_id file_hint chunk_id)
            | _ => none
        | _ => none
      else none
    | _ => none
  | _ => none

/-!
The redaction patterns of `rollup_signals.py`, transcribed into the regex
AST, and `_redact` as the chain of eight substitutions.
-/

def emailLocalChar (c : Char) : Bool :=
  reWordChar c || c = '.' || c = '+' || c = '-'

def emailDomainChar (c : Char) : Bool := reWordChar c || c = '.' || c = '-'

def asciiAlphaChar (c : Char) : Bool := c.isAlpha

def hexChar (c : Char) : Bool :=
  c.isDigit || ('a' ≤ c && c ≤ 'f') || ('A' ≤ c && c ≤ 'F')

def tokenKeyChar (c : Char) : Bool :=
  c.isAlphanum || c = '_' || c = '-'

def phoneSepChar (c : Char) : Bool := pySpaceChar c || c = '.' || c = '-'

def cardSepChar (c : Char) : Bool := c = ' ' || c = '-'

/-- `EMAIL_RE`. -/
def EMAIL_RE : RE :=
  rcats [rplus (.cls emailLocalChar), .chr '@', rplus (.cls emailDomainChar),
    .chr '.', .rep (.cls asciiAlphaChar) 2 none true]

/-- `URL_RE`. -/
def URL_RE : RE :=
  rcats [rstr "http", ropt (.chr 's'), rstr "://", rplus rnonspace]

/-- `TOKEN_RE`. -/
def TOKEN_RE : RE :=
  rcats [.wb,
    raltl
      [rcats [rstr "sk-", .rep (.cls tokenKeyChar) 8 none true],
       rcats [rstr "xox", .cls (fun c => c = 'b' || c = 'a' || c = 'p' || c = 'r' || c = 's'),
         .chr '-', .rep rnonspace 6 none true],
       rcats [rstr "ghp_", .rep rnonspace 6 none true],
       rcats [rstr "AKIA", .rep rnonspace 8 none true]],
    .wb]

/-- `LONGHEX_RE`. -/
def LONGHEX_RE : RE := rcats [.wb, .rep (.cls hexChar) 16 none true, .wb]

/-- `PATH_RE`. -/
def PATH_RE : RE :=
  rcats [.chr '/',
    raltl [rstr "home", rstr "Users", rstr "var", rstr "etc", rstr "opt", rstr "srv"],
    .chr '/', rstar rnonspace]

/-- `IP_RE`. -/
def IP_RE : RE :=
  rcats [.wb, .rep (rcats [.rep rdigit 1 (some 3) true, .chr '.']) 3 (some 3) true,
    .rep rdigit 1 (some 3) true, .wb]

/-- `PHONE_RE`. -/
def PHONE_RE : RE :=
  rcats [.wb,
    ropt (rcats [ropt (.chr '+'), .rep rdigit 1 (some 3) true, ropt (.cls phoneSepChar)]),
    ropt (rcats [ropt (.chr '('), .rep rdigit 3 (some 3) true, ropt (.chr ')'),
      ropt (.cls phoneSepChar)]),
    .rep rdigit 3 (some 3) true, ropt (.cls phoneSepChar),
    .rep rdigit 4 (some 4) true, .wb]

/-- `CARD_RE`. -/
def CARD_RE : RE :=
  rcats [.wb, .rep (.cat rdigit (.rep (.cls cardSepChar) 0 none false)) 13 (some 19) true, .wb]

/-- `_redact` of `rollup_signals.py`. -/
def redact (text : String) : String :=
  let t := pyReSub EMAIL_RE "[email]" text
  let t := pyReSub URL_RE "[url]" t
  let t := pyReSub TOKEN_RE "[token]" t
  let t := pyReSub LONGHEX_RE "[id]" t
  let t := pyReSub PATH_RE "[path]" t
  let t := pyReSub IP_RE "[ip]" t
  let t := pyReSub PHONE_RE "[phone]" t
  pyReSub CARD_RE "[fin_id]" t

/-!
The keyword patterns of `_heuristic_extract`. They carry the `re.I` flag in
the source; this is modeled by writing the patterns in lowercase and
searching the lowercased text, which is equivalent for these ASCII patterns.
-/

def frustration_re : RE :=
  rcats [.wb,
    raltl
      [rcats [rstr "confus", raltl [rstr "ed", rstr "ing"]],
       rcats [rstr "frustrat", raltl [rstr "ed", rstr "ing"]],
       rstr "dont understand", rstr "do not understand",
       rstr "wtf", rstr "not what i meant"],
    .wb]

def improve_re : RE :=
  rcats [.wb,
    raltl [rstr "we should", rstr "should we", rstr "suggest", rstr "improve",
      rstr "fix", rstr "add", rstr "change", rstr "avoid"],
    .wb]

def experiment_re : RE :=
  rcats [.wb,
    raltl [rstr "experiment", rstr "ablation", rstr "benchmark", rstr "eval",
      rstr "evaluation", rstr "hypothesis"],
    .wb]

def opportunity_re : RE :=
  rcats [.wb,
    raltl [rstr "reach out", rstr "outreach", rstr "share", rstr "publish",
      rstr "demo", rstr "hackathon", rstr "community",
      rcats [rstr "partner", ropt (rstr "ship")],
      rcats [rstr "collab", ropt (rstr "orate")],
      rstr "announce", rstr "publicize"],
    .wb]

def delight_re : RE :=
  rcats [.wb,
    raltl [rstr "delight", rstr "wow", rstr "surprise", rstr "magical",
      rstr "polish", rstr "lovely", rstr "make it feel"],
    .wb]

/-- Case-insensitive search, modeling the `re.I` flag. -/
def searchI (r : RE) (s : String) : Bool := pyReSearch r (pyLower s)

/-- The tool-result error test of `_heuristic_extract`: a truthy status equal
to error after lowering, or a truthy error code starting with EXIT_. -/
def heurStatusErr (v : EventView) : Bool :=
  match v.status with
  | some st => !st.isEmpty && pyLower st == "error"
  | none => false

def heurExitErr (v : EventView) : Bool :=
  match v.error_code with
  | some ec => !ec.isEmpty && ec.startsWith "EXIT_"
  | none => false

def heurToolTags (v : EventView) : List JVal :=
  match v.tool with
  | some t => if t.isEmpty then [] else [.jstr ("tool:" ++ t)]
  | none => []

/-- The candidate shape shared by all branches of `_heuristic_extract`. -/
def heur_item (kind severity : String) (conf : ℚ) (tags : List JVal)
    (view : EventView) (cfg : MineSignalsConfig) : JVal :=
  .jobj [("kind", .jstr kind),
         ("summary", .jstr (pyTruncate ((pySplitlines view.text).headD "") cfg.max_summary_chars).1),
         ("severity", .jstr severity),
         ("confidence", .jnum conf),
         ("tags", .jarr tags),
         ("evidence", .jarr [.jobj
           [("event_i", .jint view.i), ("role", .jstr view.role),
            ("field_path", .jstr "text"),
            ("quote", .jstr (pyTruncate view.text cfg.max_quote_chars).1)]])]

/-- One iteration of the view loop of `_heuristic_extract`: the candidate
produced for this view, if any, and whether the branch ends in `continue`,
which skips the item-count check at the bottom of the loop body. The
improvement branch and the no-match path fall through to that check. -/
def heur_step (view : EventView) : Option (String × String × ℚ × List JVal) × Bool :=
  if view.role == "toolResult" && (heurStatusErr view || heurExitErr view) then
    (some ("error", "medium", 2/5, heurToolTags view), true)
  else if view.role == "user" && searchI frustration_re view.text then
    (some ("user_frustration", "medium", 2/5, [.jstr "frustration"]), true)
  else if searchI experiment_re view.text then
    (some ("experiment_suggestion", "low", 3/10, [.jstr "experiment"]), true)
  else if searchI opportunity_re view.text then
    (some ("proactive_opportunity", "low", 3/10, [.jstr "opportunity"]), true)
  else if searchI delight_re view.text then
    (some ("user_delight", "low", 3/10, [.jstr "delight"]), true)
  else if searchI improve_re view.text then
    (some ("improvement_suggestion", "low", 3/10, [.jstr "suggestion"]), false)
  else (none, false)

/-- Append the candidate of `heur_step`, if any, to the item list. -/
def heur_append (items : List JVal) (view : EventView) (cfg : MineSignalsConfig) :
    List JVal :=
  match (heur_step view).1 with
  | some (k, sev, conf, tags) => items ++ [heur_item k sev conf tags view cfg]
  | none => items

/-- The view loop of `_heuristic_extract`. -/
def heuristic_extract_go (cfg : MineSignalsConfig) :
    List EventView → List JVal → List JVal
  | [], items => items
  | view :: rest, items =>
    if view.text.isEmpty then heuristic_extract_go cfg rest items
    else if (heur_step view).2 then
      heuristic_extract_go cfg rest (heur_append items view cfg)
    else if ((heur_append items view cfg).length : Int) ≥ cfg.max_items_per_chunk then
      heur_append items view cfg
    else heuristic_extract_go cfg rest (heur_append items view cfg)

/-- `_heuristic_extract` of `mine_signals.py` on the views of one chunk. -/
def heuristic_extract (chunkViews : List EventView) (cfg : MineSignalsConfig) :
    List JVal :=
  pyTake (heuristic_extract_go cfg chunkViews []) cfg.max_items_per_chunk

/-!
The chunker of `mine_signals.py`.
-/

structure Chunk where
  chunk_id : String
  start_i : Int
  end_i : Int
  views : List EventView
deriving DecidableEq, Repr, Inhabited

/-- `_should_extend_boundary`. -/
def should_extend_boundary (prev nxt : EventView) : Bool :=
  (prev.role == "toolCall" && nxt.role == "toolResult") ||
  (prev.role == "toolResult" && nxt.role == "assistant") ||
  (prev.role == "user" && nxt.role == "assistant")

/-- The window end before the boundary extension: `min(n, start + W)`. -/
def window_pre_end (n start w : Nat) : Nat := min n (start + w)

/-- The window end after the boundary-extension test of the loop body. -/
def window_end (views : List EventView) (n start w : Nat) : Nat :=
  let e0 := window_pre_end n start w
  if e0 < n then
    if should_extend_boundary (views.getD (e0 - 1) default) (views.getD e0 default)
    then min n (e0 + 1) else e0
  else e0

def chunk_slice (views : List EventView) (start e : Nat) : List EventView :=
  (views.drop start).take (e - start)

/-- The chunking loop. Natural-number subtraction models the `max(0, ...)`
clamp of the source; the fuel exceeds the iteration count because the start
index strictly increases. -/
def chunk_event_views_go (views : List EventView) (w overlap step : Nat) :
    Nat → Nat → Nat → List Chunk
  | _, _, 0 => []
  | start, idx, fuel + 1 =>
    let n := views.length
    if start ≥ n then []
    else
      let e := window_end views n start w
      let cviews := chunk_slice views start e
      if cviews.isEmpty then []
      else
        { chunk_id := "chunk:" ++ toString idx,
          start_i := (cviews.headD default).i,
          end_i := (cviews.getLastD default).i,
          views := cviews } ::
        (if e ≥ n then []
         else
           let start2 := e - overlap
           if start2 ≥ n then []
           else
             let start3 := if start2 = e then e + step else start2
             chunk_event_views_go views w overlap step start3 (idx + 1) fuel)

/-- `_chunk_event_views` of `mine_signals.py`. -/
def chunk_event_views (views : List EventView) (cfg : MineSignalsConfig) :
    List Chunk :=
  if views.isEmpty || cfg.chunk_events ≤ 0 then []
  else
    let w := cfg.chunk_events.toNat
    let overlap := (max 0 (min cfg.chunk_overlap (cfg.chunk_events - 1))).toNat
    let step := max 1 (w - overlap)
    chunk_event_views_go views w overlap step 0 0 (views.length + 1)

/-!
Auxiliary facts about the string primitives, used when settling the claims.
-/

theorem mem_dropWhile_of_not (p : Char → Bool) (c : Char) (hc : p c = false) :
    ∀ l : List Char, c ∈ l → c ∈ l.dropWhile p := by
  intro l
  induction l with
  | nil => intro h; exact absurd h (List.not_mem_nil c)
  | cons a t ih =>
    intro h
    by_cases hpa : p a = true
    · rw [List.dropWhile_cons_of_pos hpa]
      rcases List.mem_cons.mp h with rfl | ht
      · rw [hc] at hpa
        simp at hpa
      · exact ih ht
    · rw [List.dropWhile_cons_of_neg hpa]
      exact h

theorem mem_stripList_of_not_space (c : Char) (hc : pySpaceChar c = false)
    (l : List Char) (hm : c ∈ l) : c ∈ stripList l := by
  unfold stripList stripRightList stripLeftList
  have h1 : c ∈ l.dropWhile pySpaceChar := mem_dropWhile_of_not _ c hc l hm
  have h2 : c ∈ (l.dropWhile pySpaceChar).reverse := List.mem_reverse.mpr h1
  exact List.mem_reverse.mpr (mem_dropWhile_of_not _ c hc _ h2)

theorem stripList_ne_nil (c : Char) (hc : pySpaceChar c = false)
    (l : List Char) (hm : c ∈ l) : stripList l ≠ [] := by
  intro h
  have := mem_stripList_of_not_space c hc l hm
  rw [h] at this
  exact absurd this (List.not_mem_nil c)

theorem pyStrip_ne_empty (c : Char) (hc : pySpaceChar c = false) (s : String)
    (hm : c ∈ s.data) : pyStrip s ≠ "" := by
  intro h
  have hd : (pyStrip s).data = [] := by rw [h]
  exact stripList_ne_nil c hc s.data hm hd

theorem head_dropWhile_false (p : Char → Bool) :
    ∀ (l : List Char) (c : Char) (t : List Char),
      l.dropWhile p = c :: t → p c = false := by
  intro l
  induction l with
  | nil => intro c t h; simp [List.dropWhile] at h
  | cons a r ih =>
    intro c t h
    by_cases hpa : p a = true
    · rw [List.dropWhile_cons_of_pos hpa] at h
      exact ih c t h
    · rw [List.dropWhile_cons_of_neg hpa] at h
      cases h
      simpa using hpa

theorem dropWhile_len_le (p : Char → Bool) (l : List Char) :
    (l.dropWhile p).length ≤ l.length := by
  induction l with
  | nil => simp
  | cons a t ih =>
    by_cases hpa : p a = true
    · rw [List.dropWhile_cons_of_pos hpa]
      simp only [List.length_cons]
      omega
    · rw [List.dropWhile_cons_of_neg hpa]

theorem length_stripList_le (l : List Char) : (stripList l).length ≤ l.length := by
  unfold stripList stripRightList stripLeftList
  calc ((l.dropWhile pySpaceChar).reverse.dropWhile pySpaceChar).reverse.length
      = ((l.dropWhile pySpaceChar).reverse.dropWhile pySpaceChar).length := by
        rw [List.length_reverse]
    _ ≤ (l.dropWhile pySpaceChar).reverse.length := dropWhile_len_le _ _
    _ = (l.dropWhile pySpaceChar).length := by rw [List.length_reverse]
    _ ≤ l.length := dropWhile_len_le _ _

/-- A string equal to its own strip has a non-space first character. -/
theorem stripped_head_not_space (c : Char) (t : List Char)
    (h : stripList (c :: t) = c :: t) : pySpaceChar c = false := by
  by_contra hcc
  have hc : pySpaceChar c = true := by
    revert hcc
    cases pySpaceChar c <;> simp
  have key : stripList (c :: t) = stripRightList (stripLeftList t) := by
    unfold stripList stripLeftList
    rw [List.dropWhile_cons_of_pos hc]
  have h1 : (stripRightList (stripLeftList t)).length ≤ t.length := by
    unfold stripRightList stripLeftList
    calc ((t.dropWhile pySpaceChar).reverse.dropWhile pySpaceChar).reverse.length
        = ((t.dropWhile pySpaceChar).reverse.dropWhile pySpaceChar).length := by
          rw [List.length_reverse]
      _ ≤ (t.dropWhile pySpaceChar).reverse.length := dropWhile_len_le _ _
      _ = (t.dropWhile pySpaceChar).length := by rw [List.length_reverse]
      _ ≤ t.length := dropWhile_len_le _ _
  rw [key] at h
  have h2 := congrArg List.length h
  simp only [List.length_cons] at h2
  omega

/-- The last character of a nonempty right strip is non-space. -/
theorem stripRight_last_not_space (l : List Char) (c : Char) (t : List Char)
    (h : stripRightList l = c :: t) :
    pySpaceChar ((c :: t).getLast (by simp)) = false := by
  unfold stripRightList at h
  have h2 : (l.reverse.dropWhile pySpaceChar) = (c :: t).reverse := by
    have := congrArg List.reverse h
    rwa [List.reverse_reverse] at this
  rcases h3 : (c :: t).reverse with _ | ⟨d, r⟩
  · simp at h3
  · rw [h3] at h2
    have hd := head_dropWhile_false pySpaceChar l.reverse d r h2
    have : (c :: t).getLast (by simp) = d := by
      have := List.getLast_eq_head_reverse (l := c :: t)
      rw [this]
      simp [h3]
    rw [this]
    exact hd

/-- The strip of a nonempty stripped string is itself nonempty. -/
theorem pyStrip_pyStrip_ne (s : String) (h : pyStrip s ≠ "") :
    pyStrip (pyStrip s) ≠ "" := by
  have hdata : (pyStrip s).data = stripList s.data := rfl
  rcases hS : stripList s.data with _ | ⟨c, t⟩
  · exfalso
    apply h
    have : pyStrip s = ⟨stripList s.data⟩ := rfl
    rw [this, hS]
  · have hlast : pySpaceChar ((c :: t).getLast (by simp)) = false := by
      apply stripRight_last_not_space (stripLeftList s.data)
      unfold stripList at hS
      exact hS
    apply pyStrip_ne_empty ((c :: t).getLast (by simp)) hlast
    rw [hdata, hS]
    exact List.getLast_mem _

theorem pyTruncate_of_fits (t : String) (m : Int) (hs : pyStrip t = t)
    (hne : t ≠ "") (hlen : (t.length : Int) ≤ m) : pyTruncate t m = (t, false) := by
  have hd : t.data ≠ [] := by
    intro hdd
    apply hne
    have ht : t = ⟨t.data⟩ := rfl
    rw [ht, hdd]
  have hlen_eq : t.length = t.data.length := rfl
  have h0 : t.data.length ≠ 0 := fun hz => hd (List.length_eq_zero.mp hz)
  unfold pyTruncate
  rw [hs, if_neg (by omega), if_pos hlen]

theorem ne_empty_of_isEmpty_false (s : String) (h : s.isEmpty = false) :
    s ≠ "" := by
  intro h2
  subst h2
  exact absurd h (by decide)

theorem quote_within_self (t : String) (m : Int) (hs : pyStrip t = t)
    (hne : t ≠ "") (hlen : (t.length : Int) ≤ m) : quote_within t t m = some t := by
  have hie : t.isEmpty = false := by
    rw [Bool.eq_false_iff]
    simpa [String.isEmpty_iff] using hne
  have hgt : ¬ ((t.length : Int) > m) := by omega
  simp only [quote_within, hs, hie]
  simp [hgt, hie, pyIn_self]

theorem quote_within_some (t q : String) (m : Int) (q2 : String)
    (h : quote_within t q m = some q2) : pyIn q2 t = true ∧ q2 ≠ "" := by
  simp only [quote_within] at h
  split at h
  · exact absurd h (by simp)
  · split at h
    · split at h
      · rename_i hcond
        rw [Option.some_inj] at h
        subst h
        simp only [Bool.and_eq_true, Bool.not_eq_true'] at hcond
        exact ⟨hcond.2, ne_empty_of_isEmpty_false _ hcond.1⟩
      · exact absurd h (by simp)
    · split at h
      · rename_i hcond
        rw [Option.some_inj] at h
        subst h
        simp only [Bool.and_eq_true, Bool.not_eq_true'] at hcond
        exact ⟨hcond.2, ne_empty_of_isEmpty_false _ hcond.1⟩
      · exact absurd h (by simp)

theorem event_map_get_self (views : List EventView)
    (hnd : (views.map (fun v => v.i)).Nodup) (v : EventView) (hv : v ∈ views) :
    event_map_get views v.i = some v := by
  unfold event_map_get
  rcases hf : views.reverse.find? (fun u => u.i == v.i) with _ | u
  · exfalso
    have := List.find?_eq_none.mp hf v (List.mem_reverse.mpr hv)
    simp at this
  · have hu_mem : u ∈ views := List.mem_reverse.mp (List.mem_of_find?_eq_some hf)
    have hu_eq : u.i = v.i := by
      have := List.find?_some hf
      simpa using this
    have huv := List.inj_on_of_nodup_map hnd hu_mem hv (by simpa using hu_eq)
    rw [hf, huv]

theorem validate_evidence_entry_some (views : List EventView)
    (cfg : MineSignalsConfig) (ev : JVal) (e : Evidence)
    (h : validate_evidence_entry views cfg ev = some e) :
    ∃ view, event_map_get views e.event_i = some view ∧
      pyIn e.quote view.text = true ∧ e.quote ≠ "" := by
  unfold validate_evidence_entry at h
  split at h
  · exact absurd h (by simp)
  · split at h
    · exact absurd h (by simp)
    · rename_i ei hei
      split at h
      · exact absurd h (by simp)
      · rename_i view hview
        split at h
        · rename_i q hq
          split at h
          · exact absurd h (by simp)
          · rename_i q2 hq2
            rw [Option.some_inj] at h
            subst h
            refine ⟨view, hview, ?_⟩
            have := quote_within_some view.text q cfg.max_quote_chars q2 hq2
            exact this
        · exact absurd h (by simp)

theorem foldl_min_le_init (x : Int) (xs : List Int) : xs.foldl min x ≤ x := by
  induction xs generalizing x with
  | nil => simp
  | cons y ys ih =>
    simp only [List.foldl_cons]
    exact le_trans (ih (min x y)) (min_le_left x y)

theorem init_le_foldl_max (x : Int) (xs : List Int) : x ≤ xs.foldl max x := by
  induction xs generalizing x with
  | nil => simp
  | cons y ys ih =>
    simp only [List.foldl_cons]
    exact le_trans (le_max_left x y) (ih (max x y))

theorem list_min_le_max (l : List Int) (h : l ≠ []) :
    list_min_int l ≤ list_max_int l := by
  cases l with
  | nil => exact absurd rfl h
  | cons x xs =>
    unfold list_min_int list_max_int
    exact le_trans (foldl_min_le_init x xs) (init_le_foldl_max x xs)

/-- Characterization of a successful `_validate_item` run. -/
theorem validate_item_some (item : JVal) (views : List EventView)
    (cfg : MineSignalsConfig) (sid fh cid : String) (sig : Signal)
    (h : validate_item item views cfg sid fh cid = some sig) :
    ∃ kind0 summary0 evs,
      jget item "kind" = some (.jstr kind0) ∧
      jget item "summary" = some (.jstr summary0) ∧
      jget item "evidence" = some (.jarr evs) ∧
      evs ≠ [] ∧
      (pyTake evs cfg.max_evidence_per_item).filterMap
          (validate_evidence_entry views cfg) ≠ [] ∧
      sig = build_signal (pyStrip kind0)
        (pyTruncate (pyStrip summary0) cfg.max_summary_chars).1
        ((pyTake evs cfg.max_evidence_per_item).filterMap
          (validate_evidence_entry views cfg))
        item sid fh cid := by
  unfold validate_item at h
  split at h
  · rename_i fs
    split at h
    · rename_i kind0 hkind
      split at h
      · split at h
        · rename_i summary0 hsummary
          split at h
          · exact absurd h (by simp)
          · split at h
            · rename_i evs hevs
              split at h
              · exact absurd h (by simp)
              · split at h
                · exact absurd h (by simp)
                · rw [Option.some_inj] at h
                  rename_i hval hemp
                  refine ⟨kind0, summary0, evs, hkind, hsummary, hevs, ?_, ?_, h.symm⟩
                  · simpa using hval
                  · simpa using hemp
            · exact absurd h (by simp)
        · exact absurd h (by simp)
      · exact absurd h (by simp)
    · exact absurd h (by simp)
  · exact absurd h (by simp)

/-!
Claims C1, C4 and C10 about `_validate_item`.
-/

theorem build_signal_evidence (k s : String) (v : List Evidence) (item : JVal)
    (sid fh cid : String) :
    (build_signal k s v item sid fh cid).evidence = v := rfl

theorem build_signal_confidence (k s : String) (v : List Evidence) (item : JVal)
    (sid fh cid : String) :
    (build_signal k s v item sid fh cid).confidence = confidence_of item := rfl

/-- C1. For every Signal accepted by validation, every evidence entry quote
is a literal substring of the text digest of the Event View referenced by
its event index; a candidate all of whose evidence entries fail entry
validation, in particular the substring check, is rejected as a whole, as is
a candidate without an evidence field. -/
theorem c1_grounding_rejection :
    (∀ (item : JVal) (views : List EventView) (cfg : MineSignalsConfig)
       (sid fh cid : String) (sig : Signal),
       validate_item item views cfg sid fh cid = some sig →
       ∀ e ∈ sig.evidence, ∃ v, event_map_get views e.event_i = some v ∧
         e.quote.data <:+: v.text.data) ∧
    (∀ (item : JVal) (views : List EventView) (cfg : MineSignalsConfig)
       (sid fh cid : String) (evs : List JVal),
       jget item "evidence" = some (.jarr evs) →
       (∀ ev ∈ pyTake evs cfg.max_evidence_per_item,
          validate_evidence_entry views cfg ev = none) →
       validate_item item views cfg sid fh cid = none) ∧
    (∀ (item : JVal) (views : List EventView) (cfg : MineSignalsConfig)
       (sid fh cid : String),
       jget item "evidence" = none →
       validate_item item views cfg sid fh cid = none) := by
  refine ⟨?_, ?_, ?_⟩
  · intro item views cfg sid fh cid sig h e he
    obtain ⟨k0, s0, evs, _, _, _, _, _, hsig⟩ :=
      validate_item_some item views cfg sid fh cid sig h
    subst hsig
    rw [build_signal_evidence] at he
    obtain ⟨ev, _, hev⟩ := List.mem_filterMap.mp he
    obtain ⟨view, hview, hin, _⟩ :=
      validate_evidence_entry_some views cfg ev e hev
    exact ⟨view, hview, (pyIn_infix_iff e.quote view.text).mp hin⟩
  · intro item views cfg sid fh cid evs hev hall
    have hnil : (pyTake evs cfg.max_evidence_per_item).filterMap
        (validate_evidence_entry views cfg) = [] :=
      List.filterMap_eq_nil.mpr hall
    cases item <;> try rfl
    simp only [validate_item]
    split <;> try rfl
    split <;> try rfl
    split <;> try rfl
    split <;> try rfl
    simp [hev, hnil]
  · intro item views cfg sid fh cid hev
    cases item <;> try rfl
    simp only [validate_item]
    split <;> try rfl
    split <;> try rfl
    split <;> try rfl
    split <;> try rfl
    simp [hev]

def c1ViewW : EventView :=
  { i := 0, ts := none, role := "toolResult", tool := none,
    status := some "error", error_code := none, text := "boom happened",
    text_truncated := false, raw_shape := none }

def c1ItemW : JVal :=
  .jobj [("kind", .jstr "error"), ("summary", .jstr "boom failed"),
         ("evidence", .jarr [.jobj
           [("event_i", .jint 0), ("role", .jstr "toolResult"),
            ("field_path", .jstr "text"), ("quote", .jstr "boom")]])]

def c1ItemBad : JVal :=
  .jobj [("kind", .jstr "error"), ("summary", .jstr "boom failed"),
         ("evidence", .jarr [.jobj
           [("event_i", .jint 0), ("quote", .jstr "zzz")]])]

def c1ItemNoEv : JVal :=
  .jobj [("kind", .jstr "error"), ("summary", .jstr "boom failed")]

theorem c1_grounding_rejection_witness :
    (∃ s, validate_item c1ItemW [c1ViewW] {} "s" "f" "c" = some s ∧
       ∀ e ∈ s.evidence, ∃ v, event_map_get [c1ViewW] e.event_i = some v ∧
         e.quote.data <:+: v.text.data) ∧
    validate_item c1ItemBad [c1ViewW] {} "s" "f" "c" = none ∧
    validate_item c1ItemNoEv [c1ViewW] {} "s" "f" "c" = none := by
  refine ⟨?_, ?_, ?_⟩
  · have hs : (validate_item c1ItemW [c1ViewW] {} "s" "f" "c").isSome = true := by
      rfl
    obtain ⟨s, hsome⟩ := Option.isSome_iff_exists.mp hs
    exact ⟨s, hsome, fun e he =>
      c1_grounding_rejection.1 c1ItemW [c1ViewW] {} "s" "f" "c" s hsome e he⟩
  · exact c1_grounding_rejection.2.1 c1ItemBad [c1ViewW] {} "s" "f" "c"
      [.jobj [("event_i", .jint 0), ("quote", .jstr "zzz")]] rfl (by decide)
  · exact c1_grounding_rejection.2.2 c1ItemNoEv [c1ViewW] {} "s" "f" "c" rfl

/-- C4, amended. A candidate confidence outside the unit interval is reset
to the default 0.5, not clamped to the nearer endpoint; the accepted value
always lies in the unit interval; it defaults to 0.5 when the field is
absent or not a number, and an in-range numeric value is kept. Python
booleans count as numbers here. -/
theorem c4_confidence :
    ∀ (item : JVal) (views : List EventView) (cfg : MineSignalsConfig)
      (sid fh cid : String) (sig : Signal),
      validate_item item views cfg sid fh cid = some sig →
      (0 ≤ sig.confidence ∧ sig.confidence ≤ 1) ∧
      ((jget item "confidence").bind pyNumber = none →
        sig.confidence = 1 / 2) ∧
      (∀ q : ℚ, (jget item "confidence").bind pyNumber = some q →
        ((q < 0 ∨ 1 < q) → sig.confidence = 1 / 2) ∧
        (0 ≤ q → q ≤ 1 → sig.confidence = q)) := by
  intro item views cfg sid fh cid sig h
  obtain ⟨k0, s0, evs, _, _, _, _, _, hsig⟩ :=
    validate_item_some item views cfg sid fh cid sig h
  subst hsig
  rw [build_signal_confidence]
  unfold confidence_of
  refine ⟨?_, ?_, ?_⟩
  · rcases hc : (jget item "confidence").bind pyNumber with _ | q
    · simp only [hc]
      norm_num
    · simp only [hc]
      split
      · norm_num
      · rename_i hq
        push_neg at hq
        exact hq
  · intro hc
    simp only [hc]
    norm_num
  · intro q hc
    constructor
    · intro hout
      simp only [hc]
      rw [if_pos hout]
    · intro h0 h1
      simp only [hc]
      rw [if_neg (by push_neg; exact ⟨h0, h1⟩)]

def c4ViewW : EventView :=
  { i := 0, ts := none, role := "user", tool := none,
    status := none, error_code := none, text := "hello there",
    text_truncated := false, raw_shape := none }

def c4ItemBig : JVal :=
  .jobj [("kind", .jstr "other"), ("summary", .jstr "note"),
         ("confidence", .jnum 2),
         ("evidence", .jarr [.jobj
           [("event_i", .jint 0), ("quote", .jstr "hello")]])]

def c4ItemIn : JVal :=
  .jobj [("kind", .jstr "other"), ("summary", .jstr "note"),
         ("confidence", .jnum (7 / 10)),
         ("evidence", .jarr [.jobj
           [("event_i", .jint 0), ("quote", .jstr "hello")]])]

/-- C4 counterexample: a confidence of 2.0 is accepted with value 0.5, not
clamped to 1 as the claim states. -/
theorem c4_counterexample :
    ∃ sig, validate_item c4ItemBig [c4ViewW] {} "s" "f" "c" = some sig ∧
      sig.confidence = 1 / 2 ∧ sig.confidence ≠ 1 := by
  have hs : (validate_item c4ItemBig [c4ViewW] {} "s" "f" "c").isSome = true := rfl
  obtain ⟨sig, hsome⟩ := Option.isSome_iff_exists.mp hs
  obtain ⟨k0, s0, evs, _, _, _, _, _, hsig⟩ :=
    validate_item_some c4ItemBig [c4ViewW] {} "s" "f" "c" sig hsome
  subst hsig
  refine ⟨_, hsome, ?_⟩
  rw [build_signal_confidence]
  have hnum : (jget c4ItemBig "confidence").bind pyNumber = some 2 := rfl
  simp only [confidence_of, hnum]
  rw [if_pos (by norm_num)]
  exact ⟨rfl, by norm_num⟩

theorem c4_confidence_witness :
    (∃ sig, validate_item c4ItemBig [c4ViewW] {} "s" "f" "c" = some sig ∧
       ((0 ≤ sig.confidence ∧ sig.confidence ≤ 1) ∧ sig.confidence = 1 / 2)) ∧
    (∃ sig, validate_item c4ItemIn [c4ViewW] {} "s" "f" "c" = some sig ∧
       sig.confidence = 7 / 10) := by
  constructor
  · have hs : (validate_item c4ItemBig [c4ViewW] {} "s" "f" "c").isSome = true := rfl
    obtain ⟨sig, hsome⟩ := Option.isSome_iff_exists.mp hs
    have hmain := c4_confidence c4ItemBig [c4ViewW] {} "s" "f" "c" sig hsome
    refine ⟨sig, hsome, hmain.1, ?_⟩
    exact (hmain.2.2 2 rfl).1 (by norm_num)
  · have hs : (validate_item c4ItemIn [c4ViewW] {} "s" "f" "c").isSome = true := rfl
    obtain ⟨sig, hsome⟩ := Option.isSome_iff_exists.mp hs
    have hmain := c4_confidence c4ItemIn [c4ViewW] {} "s" "f" "c" sig hsome
    exact ⟨sig, hsome, (hmain.2.2 (7 / 10) rfl).2 (by norm_num) (by norm_num)⟩

/-- C10. For every accepted Signal, the span start and end are the minimum
and maximum of the surviving evidence event indices, the span is ordered,
and every surviving evidence index resolves in the event map of the chunk
the signal was validated against. -/
theorem c10_span :
    ∀ (item : JVal) (views : List EventView) (cfg : MineSignalsConfig)
      (sid fh cid : String) (sig : Signal),
      validate_item item views cfg sid fh cid = some sig →
      sig.span_start = list_min_int (sig.evidence.map (fun e => e.event_i)) ∧
      sig.span_end = list_max_int (sig.evidence.map (fun e => e.event_i)) ∧
      sig.span_start ≤ sig.span_end ∧
      ∀ e ∈ sig.evidence, (event_map_get views e.event_i).isSome = true := by
  intro item views cfg sid fh cid sig h
  obtain ⟨k0, s0, evs, _, _, _, _, hvne, hsig⟩ :=
    validate_item_some item views cfg sid fh cid sig h
  subst hsig
  refine ⟨rfl, rfl, ?_, ?_⟩
  · rw [show (build_signal (pyStrip k0)
        (pyTruncate (pyStrip s0) cfg.max_summary_chars).1
        ((pyTake evs cfg.max_evidence_per_item).filterMap
          (validate_evidence_entry views cfg)) item sid fh cid).span_start =
        list_min_int (((pyTake evs cfg.max_evidence_per_item).filterMap
          (validate_evidence_entry views cfg)).map (fun e => e.event_i)) from rfl]
    rw [show (build_signal (pyStrip k0)
        (pyTruncate (pyStrip s0) cfg.max_summary_chars).1
        ((pyTake evs cfg.max_evidence_per_item).filterMap
          (validate_evidence_entry views cfg)) item sid fh cid).span_end =
        list_max_int (((pyTake evs cfg.max_evidence_per_item).filterMap
          (validate_evidence_entry views cfg)).map (fun e => e.event_i)) from rfl]
    apply list_min_le_max
    simp only [ne_eq, List.map_eq_nil]
    exact hvne
  · intro e he
    rw [build_signal_evidence] at he
    obtain ⟨ev, _, hev⟩ := List.mem_filterMap.mp he
    obtain ⟨view, hview, _, _⟩ :=
      validate_evidence_entry_some views cfg ev e hev
    rw [hview]
    rfl

theorem c10_span_witness :
    ∃ sig, validate_item c1ItemW [c1ViewW] {} "s" "f" "c" = some sig ∧
      sig.span_start = list_min_int (sig.evidence.map (fun e => e.event_i)) ∧
      sig.span_start ≤ sig.span_end ∧
      ∀ e ∈ sig.evidence, (event_map_get [c1ViewW] e.event_i).isSome = true := by
  have hs : (validate_item c1ItemW [c1ViewW] {} "s" "f" "c").isSome = true := rfl
  obtain ⟨sig, hsome⟩ := Option.isSome_iff_exists.mp hs
  have hmain := c10_span c1ItemW [c1ViewW] {} "s" "f" "c" sig hsome
  exact ⟨sig, hsome, hmain.1, hmain.2.2.1, hmain.2.2.2⟩

/-!
Claim C9 about the heuristic extractor round-tripping through validation.
-/

def HEUR_KINDS : List String :=
  ["error", "user_frustration", "experiment_suggestion",
   "proactive_opportunity", "user_delight", "improvement_suggestion"]

theorem heur_step_kinds (view : EventView) (k sev : String) (conf : ℚ)
    (tags : List JVal) (h : (heur_step view).1 = some (k, sev, conf, tags)) :
    k ∈ HEUR_KINDS := by
  unfold heur_step at h
  split at h
  · cases h; decide
  · split at h
    · cases h; decide
    · split at h
      · cases h; decide
      · split at h
        · cases h; decide
        · split at h
          · cases h; decide
          · split at h
            · cases h; decide
            · exact absurd h (by simp)

theorem heur_append_mem (items : List JVal) (view : EventView)
    (cfg : MineSignalsConfig) (item : JVal)
    (h : item ∈ heur_append items view cfg) :
    item ∈ items ∨ ∃ k sev conf tags, k ∈ HEUR_KINDS ∧
      item = heur_item k sev conf tags view cfg := by
  unfold heur_append at h
  split at h
  · rename_i k sev conf tags hstep
    rcases List.mem_append.mp h with h2 | h2
    · exact Or.inl h2
    · refine Or.inr ⟨k, sev, conf, tags, heur_step_kinds view k sev conf tags hstep, ?_⟩
      simpa using h2
  · exact Or.inl h

theorem heuristic_go_shape (cfg : MineSignalsConfig) :
    ∀ (views : List EventView) (acc : List JVal) (item : JVal),
      item ∈ heuristic_extract_go cfg views acc →
      item ∈ acc ∨ ∃ v ∈ views, ∃ k sev conf tags, k ∈ HEUR_KINDS ∧
        item = heur_item k sev conf tags v cfg := by
  intro views
  induction views with
  | nil => intro acc item h; exact Or.inl h
  | cons v rest ih =>
    intro acc item h
    have promote : (item ∈ acc ∨ ∃ u ∈ rest, ∃ k sev conf tags, k ∈ HEUR_KINDS ∧
        item = heur_item k sev conf tags u cfg) →
        item ∈ acc ∨ ∃ u ∈ v :: rest, ∃ k sev conf tags, k ∈ HEUR_KINDS ∧
          item = heur_item k sev conf tags u cfg := by
      rintro (h2 | ⟨u, hu, hrest⟩)
      · exact Or.inl h2
      · exact Or.inr ⟨u, List.mem_cons_of_mem v hu, hrest⟩
    have fromApp : item ∈ heur_append acc v cfg →
        item ∈ acc ∨ ∃ u ∈ v :: rest, ∃ k sev conf tags, k ∈ HEUR_KINDS ∧
          item = heur_item k sev conf tags u cfg := by
      intro h2
      rcases heur_append_mem acc v cfg item h2 with h3 | ⟨k, sev, conf, tags, hk, he⟩
      · exact Or.inl h3
      · exact Or.inr ⟨v, List.mem_cons_self v rest, k, sev, conf, tags, hk, he⟩
    have fromGoApp : item ∈ heuristic_extract_go cfg rest (heur_append acc v cfg) →
        item ∈ acc ∨ ∃ u ∈ v :: rest, ∃ k sev conf tags, k ∈ HEUR_KINDS ∧
          item = heur_item k sev conf tags u cfg := by
      intro h2
      rcases ih (heur_append acc v cfg) item h2 with h3 | ⟨u, hu, hrest⟩
      · exact fromApp h3
      · exact Or.inr ⟨u, List.mem_cons_of_mem v hu, hrest⟩
    simp only [heuristic_extract_go] at h
    split at h
    · exact promote (ih acc item h)
    · split at h
      · exact fromGoApp h
      · split at h
        · exact fromApp h
        · exact fromGoApp h

theorem pyTake_mem {α : Type} (l : List α) (k : Int) (x : α)
    (h : x ∈ pyTake l k) : x ∈ l := by
  unfold pyTake at h
  split at h
  · exact List.mem_of_mem_take h
  · exact List.mem_of_mem_take h

theorem pyTake_singleton {α : Type} (a : α) (k : Int) (hk : 1 ≤ k) :
    pyTake [a] k = [a] := by
  unfold pyTake
  rw [if_neg (by omega)]
  have h1 : 1 ≤ k.toNat := by omega
  rcases hn : k.toNat with _ | n
  · omega
  · simp

theorem splitlinesGo_head (fuel : Nat) :
    ∀ (t cur : List Char), ∃ rest,
      (splitlinesGo fuel t cur).headD [] = cur.reverse ++ rest := by
  induction fuel with
  | zero =>
    intro t cur
    exact ⟨[], by simp [splitlinesGo]⟩
  | succ n ih =>
    intro t cur
    rcases t with _ | ⟨c, tt⟩
    · exact ⟨[], by simp [splitlinesGo]⟩
    · by_cases hb : pyLineBreakChar c = true
      · exact ⟨[], by simp [splitlinesGo, hb]⟩
      · obtain ⟨rest, hr⟩ := ih tt (c :: cur)
        refine ⟨c :: rest, ?_⟩
        simp only [splitlinesGo, hb, Bool.false_eq_true, if_false]
        rw [hr]
        simp

theorem headD_map_mk (l : List (List Char)) (c : Char) (r : List Char)
    (h : l.headD [] = c :: r) :
    (l.map fun d => (⟨d⟩ : String)).headD "" = ⟨c :: r⟩ := by
  cases l with
  | nil => simp at h
  | cons x xs =>
    simp only [List.headD_cons] at h
    subst h
    rfl

/-- The first line of a nonempty stripped string starts with its non-space
first character. -/
theorem first_line_of_stripped (s : String) (hs : pyStrip s = s)
    (hne : s ≠ "") :
    ∃ c rest, ((pySplitlines s).headD "").data = c :: rest ∧
      pySpaceChar c = false := by
  have hdne : s.data ≠ [] := by
    intro hdd
    apply hne
    have ht : s = ⟨s.data⟩ := rfl
    rw [ht, hdd]
  rcases hd : s.data with _ | ⟨c, t⟩
  · exact absurd hd hdne
  · have hstrip_data : stripList s.data = s.data := by
      have : (pyStrip s).data = stripList s.data := rfl
      rw [← this, hs]
    have hc : pySpaceChar c = false := by
      apply stripped_head_not_space c t
      rw [← hd, hstrip_data, hd]
    have hcb : pyLineBreakChar c = false := by
      by_contra hcb
      have : pyLineBreakChar c = true := by
        revert hcb; cases pyLineBreakChar c <;> simp
      have := lineBreak_isSpace c this
      rw [hc] at this
      exact absurd this (by simp)
    have hne2 : s.data.isEmpty = false := by rw [hd]; rfl
    have hgo : splitlinesGo (s.data.length + 1) s.data [] =
        splitlinesGo s.data.length t [c] := by
      conv =>
        lhs
        rw [hd]
      have hlen : s.data.length = t.length + 1 := by rw [hd]; rfl
      rw [hlen]
      simp [splitlinesGo, hcb]
    obtain ⟨rest, hr⟩ := splitlinesGo_head s.data.length t [c]
    simp only [List.reverse_cons, List.reverse_nil, List.nil_append,
      List.singleton_append] at hr
    refine ⟨c, rest, ?_, hc⟩
    unfold pySplitlines
    rw [if_neg (by simp [hne2]), hgo]
    rw [headD_map_mk _ c rest hr]

/-- A truncation of a string starting with a non-space character strips to a
nonempty string, provided the budget is positive. -/
theorem pyTruncate_strip_ne (t : String) (m : Int) (c : Char)
    (rest : List Char) (ht : t.data = c :: rest) (hc : pySpaceChar c = false)
    (hm : 1 ≤ m) : pyStrip (pyTruncate t m).1 ≠ "" := by
  unfold pyTruncate
  rw [if_neg (by omega)]
  split
  · apply pyStrip_ne_empty c hc
    show c ∈ stripList t.data
    exact mem_stripList_of_not_space c hc t.data (by rw [ht]; exact List.mem_cons_self c rest)
  · apply pyStrip_ne_empty '.' (by decide)
    show ('.' : Char) ∈ (pyRStrip (pySliceTo (pyStrip t) (m - 3)) ++ "...").data
    rw [String.data_append]
    apply List.mem_append_right
    decide

/-- The single evidence entry built by the heuristic extractor validates
against the chunk views whenever the view text is stripped, nonempty and
within the quote budget. -/
theorem heur_entry_valid (views : List EventView) (cfg : MineSignalsConfig)
    (v : EventView) (hv : v ∈ views)
    (hnd : (views.map (fun u => u.i)).Nodup)
    (htext : v.text ≠ "") (hstrip : pyStrip v.text = v.text)
    (hlen : (v.text.length : Int) ≤ cfg.max_quote_chars) :
    validate_evidence_entry views cfg (.jobj
      [("event_i", .jint v.i), ("role", .jstr v.role),
       ("field_path", .jstr "text"),
       ("quote", .jstr (pyTruncate v.text cfg.max_quote_chars).1)]) =
    some ⟨v.i, v.role, "text", v.text⟩ := by
  have hq : (pyTruncate v.text cfg.max_quote_chars).1 = v.text := by
    rw [pyTruncate_of_fits v.text cfg.max_quote_chars hstrip htext hlen]
  have hmap := event_map_get_self views hnd v hv
  have hqw := quote_within_self v.text cfg.max_quote_chars hstrip htext hlen
  simp only [validate_evidence_entry, jget, List.lookup, hq]
  simp [hmap, hqw, pyIntVal, JVal.isObj]

/-- Any candidate shaped by the heuristic extractor is accepted by
`_validate_item` under the stated budget conditions. -/
theorem heur_item_accepted (views : List EventView) (cfg : MineSignalsConfig)
    (sid fh cid : String) (v : EventView) (hv : v ∈ views)
    (hnd : (views.map (fun u => u.i)).Nodup)
    (htext : v.text ≠ "") (hstrip : pyStrip v.text = v.text)
    (hlen : (v.text.length : Int) ≤ cfg.max_quote_chars)
    (hsum : 1 ≤ cfg.max_summary_chars) (hev : 1 ≤ cfg.max_evidence_per_item)
    (k sev : String) (conf : ℚ) (tags : List JVal) (hk : k ∈ HEUR_KINDS) :
    (validate_item (heur_item k sev conf tags v cfg) views cfg sid fh cid).isSome
      = true := by
  have hstripk : pyStrip k = k := by
    fin_cases hk <;> decide
  have hcont : ALLOWED_KINDS.contains k = true := by
    fin_cases hk <;> decide
  obtain ⟨c, crest, hfl, hc⟩ := first_line_of_stripped v.text hstrip htext
  have hflne : ((pySplitlines v.text).headD "").data =
      c :: crest := hfl
  have hsumne : pyStrip (pyTruncate ((pySplitlines v.text).headD "")
      cfg.max_summary_chars).1 ≠ "" :=
    pyTruncate_strip_ne _ cfg.max_summary_chars c crest hfl hc hsum
  have hentry := heur_entry_valid views cfg v hv hnd htext hstrip hlen
  have htake : pyTake [(.jobj
      [("event_i", .jint v.i), ("role", .jstr v.role),
       ("field_path", .jstr "text"),
       ("quote", .jstr (pyTruncate v.text cfg.max_quote_chars).1)] : JVal)]
      cfg.max_evidence_per_item = [(.jobj
      [("event_i", .jint v.i), ("role", .jstr v.role),
       ("field_path", .jstr "text"),
       ("quote", .jstr (pyTruncate v.text cfg.max_quote_chars).1)] : JVal)] :=
    pyTake_singleton _ cfg.max_evidence_per_item hev
  simp only [validate_item, heur_item, jget, List.lookup]
  simp only [show (("kind" : String) == "kind") = true from rfl,
    show (("summary" : String) == "kind") = false from rfl,
    show (("summary" : String) == "summary") = true from rfl,
    show (("evidence" : String) == "kind") = false from rfl,
    show (("evidence" : String) == "summary") = false from rfl,
    show (("evidence" : String) == "severity") = false from rfl,
    show (("evidence" : String) == "confidence") = false from rfl,
    show (("evidence" : String) == "tags") = false from rfl,
    show (("evidence" : String) == "evidence") = true from rfl,
    if_true, if_false]
  rw [hstripk, if_pos hcont]
  rw [if_neg (by simpa [String.isEmpty_iff] using hsumne)]
  rw [if_neg (by simp)]
  rw [htake]
  simp [hentry]

def c9ViewLong : EventView :=
  { i := 0, ts := none, role := "user", tool := none, status := none,
    error_code := none, text := "wtf abcdefgh", text_truncated := false,
    raw_shape := none }

def c9CfgLong : MineSignalsConfig := { max_quote_chars := 10 }

/-- C9. Heuristic extraction round-trips through validation: when every
view text is nonempty, stripped and within the quote budget, and the
summary and evidence budgets are at least one, every heuristic candidate is
accepted by `_validate_item`; but a view whose text exceeds the quote
budget yields a candidate whose ellipsis-truncated quote is no longer a
substring of the view text, so the candidate is rejected. -/
theorem c9_heuristic_roundtrip :
    (∀ (views : List EventView) (cfg : MineSignalsConfig) (sid fh cid : String),
      (∀ v ∈ views, v.text ≠ "" ∧ pyStrip v.text = v.text ∧
        (v.text.length : Int) ≤ cfg.max_quote_chars) →
      (views.map (fun u => u.i)).Nodup →
      1 ≤ cfg.max_summary_chars → 1 ≤ cfg.max_evidence_per_item →
      ∀ item ∈ heuristic_extract views cfg,
        (validate_item item views cfg sid fh cid).isSome = true) ∧
    ((heuristic_extract [c9ViewLong] c9CfgLong).length = 1 ∧
     (heuristic_extract [c9ViewLong] c9CfgLong).all
       (fun item =>
         (validate_item item [c9ViewLong] c9CfgLong "s" "f" "c").isNone) = true) := by
  constructor
  · intro views cfg sid fh cid hviews hnd hsum hev item hmem
    unfold heuristic_extract at hmem
    have hmem2 := pyTake_mem _ _ _ hmem
    rcases heuristic_go_shape cfg views [] item hmem2 with h | ⟨v, hv, k, sev, conf, tags, hk, he⟩
    · exact absurd h (List.not_mem_nil item)
    · subst he
      obtain ⟨htext, hstrip, hlen⟩ := hviews v hv
      exact heur_item_accepted views cfg sid fh cid v hv hnd htext hstrip hlen
        hsum hev k sev conf tags hk
  · constructor
    · decide
    · decide

def c9ViewOk : EventView :=
  { i := 3, ts := none, role := "user", tool := none, status := none,
    error_code := none, text := "we should improve this", text_truncated := false,
    raw_shape := none }

theorem c9_heuristic_roundtrip_witness :
    (∀ item ∈ heuristic_extract [c9ViewOk] {},
      (validate_item item [c9ViewOk] {} "s" "f" "c").isSome = true) ∧
    (heuristic_extract [c9ViewLong] c9CfgLong).length = 1 := by
  constructor
  · exact c9_heuristic_roundtrip.1 [c9ViewOk] {} "s" "f" "c"
      (by decide) (by decide) (by decide) (by decide)
  · exact c9_heuristic_roundtrip.2.1

/-!
Claims C6 and C7 about the chunker.
-/

def c6Views : List EventView :=
  (List.range 4).map fun j =>
    { i := (j : Int), ts := none, role := "other", tool := none, status := none,
      error_code := none, text := "t", text_truncated := false, raw_shape := none }

def c6Cfg : MineSignalsConfig := { chunk_events := 2, chunk_overlap := 0 }

/-- C6: with window 2 and overlap 0 over four views, the chunker emits a
single chunk covering indices 0 and 1 and then jumps the start index past
the next window, so views 2 and 3 appear in no chunk at all: the claimed
gap-free coverage of the pre-extension ranges fails for overlap 0. The slip
is the `start = end + step` reassignment taken whenever `start == end`,
which holds exactly when the effective overlap is 0. -/
theorem c6_coverage_gap :
    (chunk_event_views c6Views c6Cfg).map (fun c => (c.start_i, c.end_i))
      = [(0, 1)] ∧
    (chunk_event_views c6Views c6Cfg).all
      (fun c => c.views.all fun v => !(v.i == 2)) = true ∧
    c6Views.length = 4 := by
  refine ⟨?_, ?_, ?_⟩ <;> decide

def c7ViewsGood : List EventView :=
  (List.range 20).map fun j =>
    { i := (j : Int), ts := none,
      role := if j = 9 then "toolCall" else if j = 10 then "toolResult" else "other",
      tool := none, status := none, error_code := none, text := "t",
      text_truncated := false, raw_shape := none }

def c7ViewsLit : List EventView :=
  (List.range 20).map fun j =>
    { i := (j : Int), ts := none,
      role := if j = 10 then "toolCall" else if j = 11 then "toolResult" else "other",
      tool := none, status := none, error_code := none, text := "t",
      text_truncated := false, raw_shape := none }

def c7Cfg : MineSignalsConfig := { chunk_events := 10, chunk_overlap := 4 }

/-- C7, amended. The chunker extends a window whose end falls strictly
inside the view list by exactly one event if and only if the boundary pair
matches (toolCall, toolResult), (toolResult, assistant) or
(user, assistant); in the 20-event scenario the toolCall must be the last
event inside the window: with event 9 a toolCall and event 10 its
toolResult, `chunk_events = 10` and the boundary between indices 9 and 10,
the first chunk is extended to include index 10. -/
theorem c7_boundary_extension :
    (∀ prev nxt : EventView, should_extend_boundary prev nxt = true ↔
      ((prev.role = "toolCall" ∧ nxt.role = "toolResult") ∨
       (prev.role = "toolResult" ∧ nxt.role = "assistant") ∨
       (prev.role = "user" ∧ nxt.role = "assistant"))) ∧
    (∀ (views : List EventView) (start w : Nat),
      window_pre_end views.length start w < views.length →
      window_end views views.length start w =
        if should_extend_boundary
            (views.getD (window_pre_end views.length start w - 1) default)
            (views.getD (window_pre_end views.length start w) default)
        then window_pre_end views.length start w + 1
        else window_pre_end views.length start w) ∧
    ((chunk_event_views c7ViewsGood c7Cfg).map (fun c => (c.start_i, c.end_i))
       = [(0, 10), (7, 16), (13, 19)] ∧
     ((chunk_event_views c7ViewsGood c7Cfg).headD default).views.any
       (fun v => v.i == 10) = true) := by
  refine ⟨?_, ?_, ?_, ?_⟩
  · intro prev nxt
    simp [should_extend_boundary]
    tauto
  · intro views start w h
    unfold window_end
    rw [if_pos h]
    split
    · rw [Nat.min_eq_right (by omega)]
    · rfl
  · decide
  · decide

/-- C7 counterexample: reading the scenario with zero-based indices, event
10 a toolCall and event 11 its toolResult, the window ending at index 10
has boundary pair (event 9, event 10), which matches no extension rule: the
first chunk ends at index 9, and no chunk is extended to end at index 11. -/
theorem c7_counterexample :
    (chunk_event_views c7ViewsLit c7Cfg).map (fun c => (c.start_i, c.end_i))
      = [(0, 9), (6, 15), (12, 19)] ∧
    (chunk_event_views c7ViewsLit c7Cfg).all (fun c => !(c.end_i == 11)) = true := by
  constructor <;> decide

theorem c7_boundary_extension_witness :
    window_end c7ViewsGood c7ViewsGood.length 0 10 =
      (if should_extend_boundary
          (c7ViewsGood.getD (window_pre_end c7ViewsGood.length 0 10 - 1) default)
          (c7ViewsGood.getD (window_pre_end c7ViewsGood.length 0 10) default)
       then window_pre_end c7ViewsGood.length 0 10 + 1
       else window_pre_end c7ViewsGood.length 0 10) ∧
    window_end c7ViewsGood c7ViewsGood.length 0 10 = 11 := by
  constructor
  · exact c7_boundary_extension.2.1 c7ViewsGood 0 10 (by decide)
  · decide

/-!
Claim C2 about the content-derived item identifier.
-/

theorem build_signal_item_id (k s : String) (v : List Evidence) (item : JVal)
    (sid fh cid : String) :
    (build_signal k s v item sid fh cid).item_id =
      item_id_of sid k s (v.map (fun e => e.quote)) := rfl

theorem build_signal_kind (k s : String) (v : List Evidence) (item : JVal)
    (sid fh cid : String) : (build_signal k s v item sid fh cid).kind = k := rfl

theorem build_signal_summary (k s : String) (v : List Evidence) (item : JVal)
    (sid fh cid : String) : (build_signal k s v item sid fh cid).summary = s := rfl

/-- The identifier of any accepted Signal is the hash of the dedupe seed
built from its own session id, kind, summary and surviving quotes. -/
theorem validate_item_id (item : JVal) (views : List EventView)
    (cfg : MineSignalsConfig) (sid fh cid : String) (sig : Signal)
    (h : validate_item item views cfg sid fh cid = some sig) :
    sig.item_id = item_id_of sid sig.kind sig.summary
      (sig.evidence.map (fun e => e.quote)) := by
  obtain ⟨k0, s0, evs, _, _, _, _, _, hsig⟩ :=
    validate_item_some item views cfg sid fh cid sig h
  subst hsig
  rfl

def c2Views : List EventView :=
  [{ i := 0, ts := none, role := "user", tool := none, status := none,
     error_code := none, text := "aa", text_truncated := false, raw_shape := none },
   { i := 1, ts := none, role := "assistant", tool := none, status := none,
     error_code := none, text := "bb", text_truncated := false, raw_shape := none }]

def c2Ev0 : JVal := .jobj [("event_i", .jint 0), ("quote", .jstr "aa")]

def c2Ev1 : JVal := .jobj [("event_i", .jint 1), ("quote", .jstr "bb")]

def c2ItemAB : JVal :=
  .jobj [("kind", .jstr "other"), ("summary", .jstr "note"),
         ("evidence", .jarr [c2Ev0, c2Ev1])]

def c2ItemBA : JVal :=
  .jobj [("kind", .jstr "other"), ("summary", .jstr "note"),
         ("evidence", .jarr [c2Ev1, c2Ev0])]

def c2ItemS2 : JVal :=
  .jobj [("kind", .jstr "other"), ("summary", .jstr "memo"),
         ("evidence", .jarr [c2Ev0, c2Ev1])]

/-- C2 counterexample: two validated candidates with the same session id,
kind, summary and the same multiset of surviving quotes, differing only in
the order of the evidence entries, receive different identifiers: the
dedupe seed stores the quotes in evidence order, not sorted. -/
theorem c2_counterexample :
    ∃ sig1 sig2,
      validate_item c2ItemAB c2Views {} "sess" "f" "c" = some sig1 ∧
      validate_item c2ItemBA c2Views {} "sess" "f" "c" = some sig2 ∧
      sig1.kind = sig2.kind ∧ sig1.summary = sig2.summary ∧
      (sig1.evidence.map (fun e => e.quote)).Perm
        (sig2.evidence.map (fun e => e.quote)) ∧
      sig1.item_id ≠ sig2.item_id := by
  have hs1 : (validate_item c2ItemAB c2Views {} "sess" "f" "c").isSome = true := rfl
  have hs2 : (validate_item c2ItemBA c2Views {} "sess" "f" "c").isSome = true := rfl
  obtain ⟨sig1, hsome1⟩ := Option.isSome_iff_exists.mp hs1
  obtain ⟨sig2, hsome2⟩ := Option.isSome_iff_exists.mp hs2
  obtain ⟨k1, s1, e1, hk1, hsum1, hev1, _, _, hb1⟩ :=
    validate_item_some _ _ _ _ _ _ _ hsome1
  obtain ⟨k2, s2, e2, hk2, hsum2, hev2, _, _, hb2⟩ :=
    validate_item_some _ _ _ _ _ _ _ hsome2
  subst hb1
  subst hb2
  have hk1e : k1 = "other" := by
    have : jget c2ItemAB "kind" = some (.jstr "other") := rfl
    rw [this] at hk1
    injection hk1 with h2
    injection h2 with h3
    exact h3.symm
  have hk2e : k2 = "other" := by
    have : jget c2ItemBA "kind" = some (.jstr "other") := rfl
    rw [this] at hk2
    injection hk2 with h2
    injection h2 with h3
    exact h3.symm
  have hs1e : s1 = "note" := by
    have : jget c2ItemAB "summary" = some (.jstr "note") := rfl
    rw [this] at hsum1
    injection hsum1 with h2
    injection h2 with h3
    exact h3.symm
  have hs2e : s2 = "note" := by
    have : jget c2ItemBA "summary" = some (.jstr "note") := rfl
    rw [this] at hsum2
    injection hsum2 with h2
    injection h2 with h3
    exact h3.symm
  have he1e : e1 = [c2Ev0, c2Ev1] := by
    have : jget c2ItemAB "evidence" = some (.jarr [c2Ev0, c2Ev1]) := rfl
    rw [this] at hev1
    injection hev1 with h2
    injection h2 with h3
    exact h3.symm
  have he2e : e2 = [c2Ev1, c2Ev0] := by
    have : jget c2ItemBA "evidence" = some (.jarr [c2Ev1, c2Ev0]) := rfl
    rw [this] at hev2
    injection hev2 with h2
    injection h2 with h3
    exact h3.symm
  subst hk1e hk2e hs1e hs2e he1e he2e
  refine ⟨_, _, hsome1, hsome2, rfl, rfl, ?_, ?_⟩
  · decide
  · decide

/-- C2, amended. The identifier is a content hash over session id, kind,
summary and the surviving evidence quotes in their evidence order: two
validated candidates agreeing on session id, kind, summary and the ordered
sequence of surviving quotes receive identical identifiers, and changing
only the summary changes the identifier, witnessed concretely; reordering
the quotes may change the identifier. -/
theorem c2_item_id :
    (∀ (item1 item2 : JVal) (views1 views2 : List EventView)
       (cfg1 cfg2 : MineSignalsConfig) (sid fh1 cid1 fh2 cid2 : String)
       (sig1 sig2 : Signal),
       validate_item item1 views1 cfg1 sid fh1 cid1 = some sig1 →
       validate_item item2 views2 cfg2 sid fh2 cid2 = some sig2 →
       sig1.kind = sig2.kind → sig1.summary = sig2.summary →
       sig1.evidence.map (fun e => e.quote) =
         sig2.evidence.map (fun e => e.quote) →
       sig1.item_id = sig2.item_id) ∧
    (∃ sig1 sig3,
       validate_item c2ItemAB c2Views {} "sess" "f" "c" = some sig1 ∧
       validate_item c2ItemS2 c2Views {} "sess" "f" "c" = some sig3 ∧
       sig1.summary ≠ sig3.summary ∧ sig1.item_id ≠ sig3.item_id) := by
  constructor
  · intro item1 item2 views1 views2 cfg1 cfg2 sid fh1 cid1 fh2 cid2 sig1 sig2
      h1 h2 hke hse hqe
    rw [validate_item_id item1 views1 cfg1 sid fh1 cid1 sig1 h1,
      validate_item_id item2 views2 cfg2 sid fh2 cid2 sig2 h2, hke, hse, hqe]
  · have hs1 : (validate_item c2ItemAB c2Views {} "sess" "f" "c").isSome = true := rfl
    have hs3 : (validate_item c2ItemS2 c2Views {} "sess" "f" "c").isSome = true := rfl
    obtain ⟨sig1, hsome1⟩ := Option.isSome_iff_exists.mp hs1
    obtain ⟨sig3, hsome3⟩ := Option.isSome_iff_exists.mp hs3
    obtain ⟨k1, s1, e1, hk1, hsum1, hev1, _, _, hb1⟩ :=
      validate_item_some _ _ _ _ _ _ _ hsome1
    obtain ⟨k3, s3, e3, hk3, hsum3, hev3, _, _, hb3⟩ :=
      validate_item_some _ _ _ _ _ _ _ hsome3
    subst hb1
    subst hb3
    have hs1e : s1 = "note" := by
      have : jget c2ItemAB "summary" = some (.jstr "note") := rfl
      rw [this] at hsum1
      injection hsum1 with h2
      injection h2 with h3
      exact h3.symm
    have hs3e : s3 = "memo" := by
      have : jget c2ItemS2 "summary" = some (.jstr "memo") := rfl
      rw [this] at hsum3
      injection hsum3 with h2
      injection h2 with h3
      exact h3.symm
    have hk1e : k1 = "other" := by
      have : jget c2ItemAB "kind" = some (.jstr "other") := rfl
      rw [this] at hk1
      injection hk1 with h2
      injection h2 with h3
      exact h3.symm
    have hk3e : k3 = "other" := by
      have : jget c2ItemS2 "kind" = some (.jstr "other") := rfl
      rw [this] at hk3
      injection hk3 with h2
      injection h2 with h3
      exact h3.symm
    have he1e : e1 = [c2Ev0, c2Ev1] := by
      have : jget c2ItemAB "evidence" = some (.jarr [c2Ev0, c2Ev1]) := rfl
      rw [this] at hev1
      injection hev1 with h2
      injection h2 with h3
      exact h3.symm
    have he3e : e3 = [c2Ev0, c2Ev1] := by
      have : jget c2ItemS2 "evidence" = some (.jarr [c2Ev0, c2Ev1]) := rfl
      rw [this] at hev3
      injection hev3 with h2
      injection h2 with h3
      exact h3.symm
    subst hs1e hs3e hk1e hk3e he1e he3e
    refine ⟨_, _, hsome1, hsome3, ?_, ?_⟩
    · decide
    · decide

theorem c2_item_id_witness :
    ∃ sig1 sig2,
      validate_item c2ItemAB c2Views {} "sess" "f" "c" = some sig1 ∧
      validate_item c2ItemAB c2Views {} "sess" "g" "d" = some sig2 ∧
      sig1.item_id = sig2.item_id := by
  have hs1 : (validate_item c2ItemAB c2Views {} "sess" "f" "c").isSome = true := rfl
  have hs2 : (validate_item c2ItemAB c2Views {} "sess" "g" "d").isSome = true := rfl
  obtain ⟨sig1, hsome1⟩ := Option.isSome_iff_exists.mp hs1
  obtain ⟨sig2, hsome2⟩ := Option.isSome_iff_exists.mp hs2
  refine ⟨sig1, sig2, hsome1, hsome2, ?_⟩
  obtain ⟨k1, s1, e1, hk1, hsum1, hev1, _, _, hb1⟩ :=
    validate_item_some _ _ _ _ _ _ _ hsome1
  obtain ⟨k2, s2, e2, hk2, hsum2, hev2, _, _, hb2⟩ :=
    validate_item_some _ _ _ _ _ _ _ hsome2
  rw [hk1] at hk2
  rw [hsum1] at hsum2
  rw [hev1] at hev2
  injection hk2 with hk2a
  injection hk2a with hke
  injection hsum2 with hb2a
  injection hb2a with hse
  injection hev2 with he2a
  injection he2a with hee
  apply c2_item_id.1 c2ItemAB c2ItemAB c2Views c2Views {} {} "sess" "f" "c"
    "g" "d" sig1 sig2 hsome1 hsome2
  · rw [hb1, hb2, hke, hse, hee]
    rfl
  · rw [hb1, hb2, hke, hse, hee]
    rfl
  · rw [hb1, hb2, hke, hse, hee]
    rfl

/-!
Rollup side: severity order, Counter access, and the tier policy
(`rollup_signals.py`). A Python `Counter` is modelled as an association
list `List (String × Int)` with unique keys; `.get(k, 0)` is `cGet`.
-/

def SEVERITY_ORDER : List (String × Int) :=
  [("critical", 4), ("high", 3), ("medium", 2), ("low", 1), ("unknown", 0)]

def cGet (c : List (String × Int)) (k : String) : Int :=
  match c.find? (fun p => p.1 == k) with
  | some p => p.2
  | none => 0

def sevKey (sev : String) : String :=
  pyLower (if sev = "" then "unknown" else sev)

def sevOrderVal (k : String) : Int :=
  match SEVERITY_ORDER.find? (fun p => p.1 == k) with
  | some p => p.2
  | none => 0

def severity_rank (sev : String) : Int :=
  sevOrderVal (sevKey sev)

def tier_for_group (max_sev : String) (tag_counts kind_counts : List (String × Int)) :
    Int × List String :=
  if 0 < cGet tag_counts "incident" ∨ sevOrderVal "high" ≤ severity_rank max_sev then
    (1, (if 0 < cGet tag_counts "incident" then ["incident"] else []) ++
        (if sevOrderVal "high" ≤ severity_rank max_sev then
          ["severity:" ++ max_sev] else []))
  else if 0 < cGet kind_counts "error" ∨ 0 < cGet kind_counts "user_frustration" ∨
      severity_rank max_sev = sevOrderVal "medium" then
    (2, (if 0 < cGet kind_counts "error" then ["kind:error"] else []) ++
        (if 0 < cGet kind_counts "user_frustration" then
          ["kind:user_frustration"] else []) ++
        (if severity_rank max_sev = sevOrderVal "medium" then
          ["severity:medium"] else []))
  else (3, ["default"])

theorem severity_rank_chain (s : String) :
    severity_rank s = (if sevKey s = "critical" then 4 else if sevKey s = "high" then 3
      else if sevKey s = "medium" then 2 else if sevKey s = "low" then 1 else 0) := by
  by_cases h1 : sevKey s = "critical"
  · unfold severity_rank
    rw [h1]
    decide
  by_cases h2 : sevKey s = "high"
  · unfold severity_rank
    rw [h2]
    decide
  by_cases h3 : sevKey s = "medium"
  · unfold severity_rank
    rw [h3]
    decide
  by_cases h4 : sevKey s = "low"
  · unfold severity_rank
    rw [h4]
    decide
  by_cases h5 : sevKey s = "unknown"
  · unfold severity_rank
    rw [h5]
    decide
  · have b1 : ("critical" == sevKey s) = false :=
      beq_eq_false_iff_ne.mpr (fun h => h1 h.symm)
    have b2 : ("high" == sevKey s) = false :=
      beq_eq_false_iff_ne.mpr (fun h => h2 h.symm)
    have b3 : ("medium" == sevKey s) = false :=
      beq_eq_false_iff_ne.mpr (fun h => h3 h.symm)
    have b4 : ("low" == sevKey s) = false :=
      beq_eq_false_iff_ne.mpr (fun h => h4 h.symm)
    have b5 : ("unknown" == sevKey s) = false :=
      beq_eq_false_iff_ne.mpr (fun h => h5 h.symm)
    simp [severity_rank, sevOrderVal, SEVERITY_ORDER, List.find?, b1, b2, b3, b4, b5,
      h1, h2, h3, h4]

theorem severity_rank_ge_high_iff (s : String) :
    sevOrderVal "high" ≤ severity_rank s ↔ (sevKey s = "critical" ∨ sevKey s = "high") := by
  rw [show sevOrderVal "high" = (3 : Int) from rfl, severity_rank_chain s]
  split_ifs with h1 h2 h3 h4 <;> simp_all <;> try omega

theorem severity_rank_eq_medium_iff (s : String) :
    severity_rank s = sevOrderVal "medium" ↔ sevKey s = "medium" := by
  rw [show sevOrderVal "medium" = (2 : Int) from rfl, severity_rank_chain s]
  split_ifs with h1 h2 h3 h4 <;> simp_all <;> try omega

/-- C3: the tier of a group is assigned by the ordered first-match policy:
tier 1 exactly when the tag counts include "incident" or the max severity
(lowercased, empty read as unknown) is critical or high; tier 2 exactly
when not tier 1 and the kind counts include "error" or "user_frustration"
or the max severity is medium; tier 3 exactly otherwise. -/
theorem c3_tier_policy (max_sev : String) (tag_counts kind_counts : List (String × Int)) :
    ((tier_for_group max_sev tag_counts kind_counts).1 = 1 ↔
      (0 < cGet tag_counts "incident" ∨ sevKey max_sev = "critical" ∨
       sevKey max_sev = "high")) ∧
    ((tier_for_group max_sev tag_counts kind_counts).1 = 2 ↔
      (¬ (0 < cGet tag_counts "incident" ∨ sevKey max_sev = "critical" ∨
          sevKey max_sev = "high") ∧
       (0 < cGet kind_counts "error" ∨ 0 < cGet kind_counts "user_frustration" ∨
        sevKey max_sev = "medium"))) ∧
    ((tier_for_group max_sev tag_counts kind_counts).1 = 3 ↔
      (¬ (0 < cGet tag_counts "incident" ∨ sevKey max_sev = "critical" ∨
          sevKey max_sev = "high") ∧
       ¬ (0 < cGet kind_counts "error" ∨ 0 < cGet kind_counts "user_frustration" ∨
          sevKey max_sev = "medium"))) := by
  have e1 : (0 < cGet tag_counts "incident" ∨ sevOrderVal "high" ≤ severity_rank max_sev) ↔
      (0 < cGet tag_counts "incident" ∨ sevKey max_sev = "critical" ∨
       sevKey max_sev = "high") :=
    or_congr Iff.rfl (severity_rank_ge_high_iff max_sev)
  have e2 : (0 < cGet kind_counts "error" ∨ 0 < cGet kind_counts "user_frustration" ∨
      severity_rank max_sev = sevOrderVal "medium") ↔
      (0 < cGet kind_counts "error" ∨ 0 < cGet kind_counts "user_frustration" ∨
       sevKey max_sev = "medium") :=
    or_congr Iff.rfl (or_congr Iff.rfl (severity_rank_eq_medium_iff max_sev))
  by_cases h1 : 0 < cGet tag_counts "incident" ∨ sevOrderVal "high" ≤ severity_rank max_sev
  · refine ⟨?_, ?_, ?_⟩ <;> unfold tier_for_group <;> rw [if_pos h1] <;>
      simp [e1.mp h1]
  · have hA : ¬ (0 < cGet tag_counts "incident" ∨ sevKey max_sev = "critical" ∨
        sevKey max_sev = "high") := fun a => h1 (e1.mpr a)
    by_cases h2 : 0 < cGet kind_counts "error" ∨ 0 < cGet kind_counts "user_frustration" ∨
        severity_rank max_sev = sevOrderVal "medium"
    · refine ⟨?_, ?_, ?_⟩ <;> unfold tier_for_group <;> rw [if_neg h1, if_pos h2] <;>
        simp [hA, e2.mp h2]
    · have hB : ¬ (0 < cGet kind_counts "error" ∨ 0 < cGet kind_counts "user_frustration" ∨
          sevKey max_sev = "medium") := fun b => h2 (e2.mpr b)
      refine ⟨?_, ?_, ?_⟩ <;> unfold tier_for_group <;> rw [if_neg h1, if_neg h2] <;>
        simp [hA, hB]

/-!
The rollup aggregation of `rollup_signals.py`. Input items are the persisted
signal JSON objects; the embedding types the fields the aggregator reads,
with `none` standing for an absent key. The float group score,
`math.log1p(count_items) + rank + bonuses`, is carried symbolically as its
determining data: no arithmetic or comparison on it occurs in the embedded
region, because the final ordering step of the source, a stable sort on
`(tier, -score)`, only permutes the record list and the theorems below
quantify over an arbitrary permutation.
-/

/-- Python `x or d` for a string read from JSON: both a missing key and an
empty string fall back to the default. -/
def orStr (o : Option String) (d : String) : String :=
  match o with
  | some s => if s = "" then d else s
  | none => d

def STOPWORDS : List String :=
  ["the", "a", "an", "and", "or", "to", "of", "in", "on", "for", "with", "by",
   "is", "are", "was", "were", "be", "this", "that", "it", "as", "at", "from",
   "into", "we", "you", "they", "i", "our", "your", "their"]

def normChar (c : Char) : Bool :=
  (decide ('a' ≤ c) && decide (c ≤ 'z')) ||
  (decide ('0' ≤ c) && decide (c ≤ '9')) || pySpaceChar c

/-- `_normalize`. -/
def normalizeText (text : String) : String :=
  let t := pyLower text
  let t := pyReSub (.cls fun c => !normChar c) " " t
  let t := pyReSub (rplus (.cls pySpaceChar)) " " t
  pyStrip t

/-- `_tokens`. -/
def tokens (text : String) : List String :=
  let ts := (pySplitWs (normalizeText text)).filter
    fun t => !t.isEmpty && !STOPWORDS.contains t
  if ts.isEmpty then pySplitWs (normalizeText text) else ts

/-- `_bigrams`. -/
def bigrams (ts : List String) : List String :=
  if ts.length < 2 then ts
  else (List.range (ts.length - 1)).map fun i =>
    String.intercalate "_" ((ts.drop i).take 2)

/-- Stable insertion: `x` lands before the first element that does not
strictly precede it, so elements inserted earlier from the right keep their
relative order, as in the Python stable sort. -/
def insertBy {α : Type} (lt : α → α → Bool) (x : α) : List α → List α
  | [] => [x]
  | y :: ys => if lt y x then y :: insertBy lt x ys else x :: y :: ys

/-- Python `sorted` with a strict precedence test `lt`; stable. -/
def pySortBy {α : Type} (lt : α → α → Bool) : List α → List α
  | [] => []
  | x :: xs => insertBy lt x (pySortBy lt xs)

/-- `Counter[k] += d` on the association-list model: the key keeps its slot,
a new key is appended, matching dict insertion order. -/
def cIncr (c : List (String × Int)) (k : String) (d : Int) : List (String × Int) :=
  match c with
  | [] => [(k, d)]
  | p :: rest => if p.1 == k then (p.1, p.2 + d) :: rest else p :: cIncr rest k d

/-- `Counter(xs)` for an iterable of strings. -/
def cFromList (xs : List String) : List (String × Int) :=
  xs.foldl (fun c k => cIncr c k 1) []

/-- `Counter.most_common(n)`: entries sorted by count descending, ties kept
in insertion order (the Python sort is stable), truncated to `n`. -/
def cMostCommon (c : List (String × Int)) (n : Int) : List (String × Int) :=
  if n < 0 then [] else (pySortBy (fun p q => decide (q.2 < p.2)) c).take n.toNat

/-- `max(d, key=d.get)`: the first key attaining the maximal count, `d0` on
an empty dict (the sources only apply it to nonempty ones). -/
def cArgmax (c : List (String × Int)) (d0 : String) : String :=
  match c with
  | [] => d0
  | p :: rest => (rest.foldl (fun best q => if best.2 < q.2 then q else best) p).1

/-- Keep the first occurrence of each element: Python set-based dedup where
only distinctness matters. -/
def dedupAcc (seen : List String) : List String → List String
  | [] => []
  | x :: xs => if seen.contains x then dedupAcc seen xs else x :: dedupAcc (x :: seen) xs

structure RollupItem where
  item_id : Option String := none
  session_id : Option String := none
  kind : Option String := none
  summary : Option String := none
  severity : Option String := none
  tags : List JVal := []
  span : Option JVal := none
  source : Option String := none

/-- The string members of a `tags` JSON array: the `isinstance(t, str)`
filters of the source. -/
def tagStrs (tags : List JVal) : List String :=
  tags.filterMap fun t => match t with | .jstr s => some s | _ => none

/-- `signature_v1`. -/
def signature_v1 (item : RollupItem) : String × String :=
  let kind := pyLower (pyStrip (orStr item.kind "unknown"))
  let summary := orStr item.summary ""
  let tags := pySortBy (fun a b => decide (a < b)) (tagStrs item.tags)
  let grams := bigrams (tokens summary)
  let gram_core := String.intercalate " " (grams.take 6)
  let tag_core := String.intercalate "," ((tags.take 5).map fun t => pyLower (pySliceTo t 32))
  let sig_text := kind ++ "|" ++ gram_core ++ "|" ++ tag_core
  (sig_text, "sig1:" ++ hash_str sig_text)

/-- `fingerprint_v1`. -/
def fingerprint_v1 (kind_v2 : String) (canonical_summary : String)
    (tags_top : List (String × Int)) : String × String :=
  let gram_core := String.intercalate " " ((bigrams (tokens canonical_summary)).take 6)
  let tag_core := String.intercalate "," ((tags_top.take 5).map fun p => pyLower (pySliceTo p.1 32))
  let fp_text := kind_v2 ++ "|" ++ gram_core ++ "|" ++ tag_core
  (fp_text, "fp1:" ++ hash_str fp_text)

/-- The inner `has(*terms)` of `_classify_kind_v2`. -/
def hasAny (summary : String) (terms : List String) : Bool :=
  terms.any fun t => pyIn t summary

/-- `_classify_kind_v2`. -/
def classify_kind_v2 (item : RollupItem) : String × String :=
  let kind := pyLower (orStr item.kind "")
  let summary := pyLower (orStr item.summary "")
  let tags := (tagStrs item.tags).map pyLower
  if kind = "proactive_opportunity" then ("proactive_opportunity", "kind:proactive_opportunity")
  else if kind = "user_delight" then ("user_delight", "kind:user_delight")
  else if kind = "error" then
    if hasAny summary ["timeout", "timed out", "rate limit", "usage limit", "quota",
        "latency", "slow", "flaky", "unavailable", "connection refused"] then
      ("reliability_perf", "error:reliability_perf")
    else ("defect", "error:defect")
  else if kind = "user_frustration" then ("ux_friction", "user_frustration:ux_friction")
  else if kind = "improvement_suggestion" ∨ kind = "experiment_suggestion" then
    if hasAny summary ["eval", "evaluation", "benchmark", "ablation", "experiment"] then
      ("process_tooling", "suggestion:process_tooling")
    else if hasAny summary ["tool", "integration", "feature", "capability", "missing"] then
      ("capability_gap", "suggestion:capability_gap")
    else if hasAny summary ["clarity", "confus", "ux", "format", "explain", "prompt"] then
      ("ux_friction", "suggestion:ux_friction")
    else if hasAny summary ["timeout", "latency", "slow", "rate limit"] then
      ("reliability_perf", "suggestion:reliability_perf")
    else if hasAny summary ["privacy", "pii", "safety", "policy", "refusal"] then
      ("safety_compliance", "suggestion:safety_compliance")
    else if tags.contains "process" ||
        hasAny summary ["triage", "rollup", "pipeline", "logging", "metrics"] then
      ("process_tooling", "suggestion:process_tooling")
    else ("ux_friction", "suggestion:ux_friction")
  else if tags.contains "process" ||
      hasAny summary ["triage", "rollup", "pipeline", "logging", "metrics"] then
    ("process_tooling", "other:process_tooling")
  else ("ux_friction", "other:ux_friction")

/-- `_sentiment`. -/
def sentiment (item : RollupItem) : String :=
  let summary := pyLower (orStr item.summary "")
  if pyLower (orStr item.kind "") = "user_frustration" then "frustrated"
  else if hasAny summary ["frustrat", "confus", "annoy", "upset", "not what i meant"] then
    "frustrated"
  else "neutral"

/-- The data determining `_score_group`: its float value is
`log1p count_items + sev + 2·incident + 0.3·err + 0.2·frus`. -/
structure GroupScore where
  count_items : Nat
  sev : Int
  incident : Bool
  err : Bool
  frus : Bool
deriving DecidableEq, Repr

/-- `_score_group`, carried symbolically. -/
def score_group (count_items : Nat) (max_sev : String)
    (tag_counts kind_counts : List (String × Int)) : GroupScore :=
  { count_items := count_items
    sev := severity_rank max_sev
    incident := decide (0 < cGet tag_counts "incident")
    err := decide (0 < cGet kind_counts "error")
    frus := decide (0 < cGet kind_counts "user_frustration") }

structure SampleRef where
  item_id : Option String
  session_id : Option String
  span : Option JVal
  source : Option String

structure Rollup where
  signature_id : String := ""
  signature_text : String := ""
  count_items : Nat := 0
  count_sessions : Nat := 0
  kind_counts : List (String × Int) := []
  kind_v2_counts : List (String × Int) := []
  max_severity : String := "unknown"
  tier : Int := 3
  tier_reasons : List String := []
  score : GroupScore := ⟨0, 0, false, false, false⟩
  tags_top : List (String × Int) := []
  canonical_summary : String := ""
  fingerprint_id : String := ""
  fingerprint_text : String := ""
  sample_refs : List SampleRef := []
  sentiment : String := "neutral"
  kind_v2_reason_top : List (String × Int) := []
  merged_from : Option (List String) := none

instance : Inhabited Rollup := ⟨{}⟩

structure RollupConfig where
  max_samples : Int := 3
  max_tags : Int := 8

/-- The max-severity fold of the group loop. -/
def maxSevOf (group : List RollupItem) : String :=
  (group.foldl (fun acc g =>
    let sev := pyLower (orStr g.severity "unknown")
    let rank := severity_rank sev
    if acc.2 < rank then (sev, rank) else acc) ("unknown", -1)).1

/-- The redacted nonempty summaries of a group, in order. -/
def summariesOf (group : List RollupItem) : List String :=
  group.filterMap fun g => match g.summary with
    | some s => if s = "" then none else some (redact s)
    | none => none

/-- `most_common(1)[0][0] if summary_counts else ""`. -/
def canonicalSummaryOf (group : List RollupItem) : String :=
  match cMostCommon (cFromList (summariesOf group)) 1 with
  | p :: _ => p.1
  | [] => ""

/-- The rollup record built for one signature group (the body of the main
loop of `rollup_signals`). -/
def build_rollup (sig_id sig_text : String) (group : List RollupItem)
    (cfg : RollupConfig) : Rollup :=
  let count_items := group.length
  let count_sessions := (dedupAcc [] (group.filterMap fun g => match g.session_id with
      | some s => if s = "" then none else some s
      | none => none)).length
  let kind_counts := cFromList (group.map fun g => orStr g.kind "unknown")
  let tag_counts := cFromList (group.flatMap fun g => tagStrs g.tags)
  let kind_v2_counts := cFromList (group.map fun g => (classify_kind_v2 g).1)
  let kind_v2_reasons := cFromList (group.map fun g => (classify_kind_v2 g).2)
  let max_sev := maxSevOf group
  let tr := tier_for_group max_sev tag_counts kind_counts
  let tags_top := cMostCommon tag_counts cfg.max_tags
  let kind_v2_primary := match cMostCommon kind_v2_counts 1 with
    | p :: _ => p.1
    | [] => "ux_friction"
  let fp := fingerprint_v1 kind_v2_primary (canonicalSummaryOf group) tags_top
  { signature_id := sig_id
    signature_text := redact sig_text
    count_items := count_items
    count_sessions := count_sessions
    kind_counts := kind_counts
    kind_v2_counts := kind_v2_counts
    max_severity := max_sev
    tier := tr.1
    tier_reasons := tr.2
    score := score_group count_items max_sev tag_counts kind_counts
    tags_top := tags_top
    canonical_summary := canonicalSummaryOf group
    fingerprint_id := fp.2
    fingerprint_text := redact fp.1
    sample_refs := (pyTake group cfg.max_samples).map fun g =>
      { item_id := g.item_id, session_id := g.session_id, span := g.span,
        source := g.source }
    sentiment := match cMostCommon (cFromList (group.map sentiment)) 1 with
      | p :: _ => p.1
      | [] => "neutral"
    kind_v2_reason_top := cMostCommon kind_v2_reasons 2 }

/-- The grouping and record-building part of `rollup_signals` (everything
up to the final stable re-sort of the record list, which only permutes it;
the merge branch is disabled for the default `merge_cfg = None`). -/
def rollup_records (items : List RollupItem) (cfg : RollupConfig) : List Rollup :=
  let keys := dedupAcc [] (items.map fun it => (signature_v1 it).2)
  keys.map fun sid =>
    let group := items.filter fun it => (signature_v1 it).2 == sid
    let sig_text := (group.map fun it => (signature_v1 it).1).getLastD ""
    build_rollup sid sig_text group cfg

/-!
Claim C5: the summary, signature and fingerprint fields of a rollup pass
through `_redact`; a single redaction pass does not guarantee the absence
of pattern matches in the output.
-/

theorem mem_insertBy {α : Type} (lt : α → α → Bool) (x a : α) (l : List α) :
    a ∈ insertBy lt x l ↔ a = x ∨ a ∈ l := by
  induction l with
  | nil => simp [insertBy]
  | cons y ys ih =>
    simp only [insertBy]
    split
    · simp only [List.mem_cons, ih]
      tauto
    · simp only [List.mem_cons]

theorem mem_pySortBy {α : Type} (lt : α → α → Bool) (a : α) (l : List α) :
    a ∈ pySortBy lt l ↔ a ∈ l := by
  induction l with
  | nil => simp [pySortBy]
  | cons x xs ih => simp [pySortBy, mem_insertBy, ih]

theorem cMostCommon_subset (c : List (String × Int)) (n : Int) (p : String × Int)
    (hp : p ∈ cMostCommon c n) : p ∈ c := by
  unfold cMostCommon at hp
  split at hp
  · simp at hp
  · exact (mem_pySortBy _ p c).mp (List.mem_of_mem_take hp)

theorem mem_keys_cIncr (c : List (String × Int)) (k : String) (d : Int) (a : String) :
    a ∈ (cIncr c k d).map Prod.fst ↔ a = k ∨ a ∈ c.map Prod.fst := by
  induction c with
  | nil => simp [cIncr]
  | cons q rest ih =>
    simp only [cIncr]
    split
    · rename_i hq
      have hk : q.1 = k := eq_of_beq hq
      simp only [List.map_cons, List.mem_cons, hk]
      tauto
    · simp only [List.map_cons, List.mem_cons, ih]
      tauto

theorem cFromList_fst_aux (xs : List String) (c : List (String × Int)) (p : String × Int)
    (hp : p ∈ xs.foldl (fun c k => cIncr c k 1) c) :
    p.1 ∈ c.map Prod.fst ∨ p.1 ∈ xs := by
  induction xs generalizing c with
  | nil => exact Or.inl (by simpa using List.mem_map_of_mem Prod.fst hp)
  | cons x xs ih =>
    simp only [List.foldl] at hp
    rcases ih (cIncr c x 1) hp with h | h
    · rcases (mem_keys_cIncr c x 1 p.1).mp h with h1 | h1
      · exact Or.inr (by simp [h1])
      · exact Or.inl h1
    · exact Or.inr (List.mem_cons_of_mem _ h)

theorem cFromList_fst (xs : List String) (p : String × Int)
    (hp : p ∈ cFromList xs) : p.1 ∈ xs := by
  have := cFromList_fst_aux xs [] p hp
  simpa using this

theorem summariesOf_image (g : List RollupItem) (s : String) (hs : s ∈ summariesOf g) :
    ∃ t, s = redact t := by
  simp only [summariesOf, List.mem_filterMap] at hs
  obtain ⟨it, _, heq⟩ := hs
  split at heq
  · split at heq
    · exact absurd heq (by simp)
    · exact ⟨_, (Option.some.inj heq).symm⟩
  · exact absurd heq (by simp)

theorem canonicalSummary_image (g : List RollupItem) :
    ∃ t, canonicalSummaryOf g = redact t := by
  unfold canonicalSummaryOf
  split
  · rename_i p rest heq
    have hp : p ∈ cMostCommon (cFromList (summariesOf g)) 1 := by
      rw [heq]
      exact List.mem_cons_self _ _
    exact summariesOf_image g p.1 (cFromList_fst _ _ (cMostCommon_subset _ _ _ hp))
  · exact ⟨"", rfl⟩

theorem rollup_records_shape (items : List RollupItem) (cfg : RollupConfig)
    (r : Rollup) (hr : r ∈ rollup_records items cfg) :
    ∃ sid st group, r = build_rollup sid st group cfg := by
  unfold rollup_records at hr
  simp only [List.mem_map] at hr
  obtain ⟨sid, _, heq⟩ := hr
  exact ⟨sid, _, _, heq.symm⟩

theorem build_rollup_canonical (sid st : String) (g : List RollupItem)
    (cfg : RollupConfig) :
    (build_rollup sid st g cfg).canonical_summary = canonicalSummaryOf g := rfl

/-- C5, amended. Every rollup record built by the aggregator has its
canonical_summary, signature_text and fingerprint_text in the image of the
redaction function: each is `_redact` of some source text (the most common
redacted member summary, the stored signature text, the fingerprint seed).
The list the aggregator returns is a stable re-sort of these records, so
the statement quantifies over any permutation of them. A single redaction
pass does not guarantee that the output matches no redaction pattern; see
the counterexample. -/
theorem c5_redaction (items : List RollupItem) (cfg : RollupConfig)
    (out : List Rollup) (hperm : out.Perm (rollup_records items cfg)) :
    ∀ r ∈ out,
      (∃ t, r.canonical_summary = redact t) ∧
      (∃ t, r.signature_text = redact t) ∧
      (∃ t, r.fingerprint_text = redact t) := by
  intro r hr
  have hr2 : r ∈ rollup_records items cfg := hperm.mem_iff.mp hr
  obtain ⟨sid, st, g, heq⟩ := rollup_records_shape items cfg r hr2
  subst heq
  refine ⟨?_, ⟨st, rfl⟩, ⟨_, rfl⟩⟩
  obtain ⟨t, ht⟩ := canonicalSummary_image g
  exact ⟨t, by rw [build_rollup_canonical, ht]⟩

def c5Item : RollupItem := { kind := some "other", summary := some "xoxb-555 123 4567" }

theorem c5_redaction_witness :
    (∃ t, (rollup_records [c5Item] {}).headI.canonical_summary = redact t) ∧
    (∃ t, (rollup_records [c5Item] {}).headI.signature_text = redact t) ∧
    (∃ t, (rollup_records [c5Item] {}).headI.fingerprint_text = redact t) := by
  have hne : rollup_records [c5Item] {} ≠ [] := by
    have hlen : (rollup_records [c5Item] {}).length = 1 := by decide
    intro h
    rw [h] at hlen
    simp at hlen
  obtain ⟨r, rest, hE⟩ := List.exists_cons_of_ne_nil hne
  have hmem : (rollup_records [c5Item] {}).headI ∈ rollup_records [c5Item] {} := by
    rw [hE]
    exact List.mem_cons_self r rest
  exact c5_redaction [c5Item] {} (rollup_records [c5Item] {}) (List.Perm.refl _)
    (rollup_records [c5Item] {}).headI hmem

/-- C5 counterexample: with a single item whose summary is an API-token
prefix followed by a phone-shaped digit run, the produced rollup has
canonical_summary "xoxb-[phone]": the phone mask is substituted first and
the result again matches the API-token pattern `TOKEN_RE`, so the field
does contain a substring matching a redaction pattern, contradicting the
claim as stated. -/
theorem c5_counterexample :
    ∃ r, r ∈ rollup_records [c5Item] {} ∧
      r.canonical_summary = "xoxb-[phone]" ∧
      pyReSearch TOKEN_RE r.canonical_summary = true := by
  cases hE : rollup_records [c5Item] {} with
  | nil =>
    have hlen : (rollup_records [c5Item] {}).length = 1 := by decide
    rw [hE] at hlen
    simp at hlen
  | cons r rest =>
    have h1 : (rollup_records [c5Item] {}).headI.canonical_summary = "xoxb-[phone]" := by
      decide
    rw [hE] at h1
    have h1r : r.canonical_summary = "xoxb-[phone]" := h1
    refine ⟨r, List.mem_cons_self r rest, h1r, ?_⟩
    rw [h1r]
    decide

/-!
The lexical merge pass of `rollup_signals.py`: `_merge_rollups_jaccard`
and `_merge_groups`, with the LLM hook at its `llm = None` operation point
(where the `elif` arm never unions). As with the aggregation above, the
final stable re-sort on `(tier, -score)` closing `_merge_groups` is not
part of the core embedding; it only permutes the merged records.
-/

structure MergeConfig where
  enabled : Bool := false
  method : String := "jaccard"
  auto_jaccard : ℚ := mkRat 62 100
  llm_jaccard : ℚ := mkRat 1 2
  max_pairs_per_block : Int := 5000
  use_llm : Bool := false
  embed_model : Option String := none
  embed_similarity : ℚ := mkRat 88 100
  embed_llm_similarity : ℚ := mkRat 8 10
  embed_k : Int := 8

/-- `_jaccard` on two token sets (deduplicated lists), as the exact value
of the Python float `inter / union`. -/
def jaccard (a b : List String) : ℚ :=
  if a.isEmpty || b.isEmpty then 0
  else if (dedupAcc [] (a ++ b)).length = 0 then 0
  else mkRat (a.filter fun x => b.contains x).length (dedupAcc [] (a ++ b)).length

/-- `max(r["kind_v2_counts"], key=...get)`: the first key of maximal count.
The records built by this module always carry a nonempty counter. -/
def kindPrimary (r : Rollup) : String := cArgmax r.kind_v2_counts "ux_friction"

/-- The block keys, in first-seen order (dict iteration order). -/
def blockKeys (rollups : List Rollup) : List String :=
  dedupAcc [] (rollups.map kindPrimary)

/-- The indices of one block, in input order. -/
def blockIdxs (rollups : List Rollup) (k : String) : List Nat :=
  (List.range rollups.length).filter fun i => kindPrimary (rollups.getD i default) == k

/-- `set(_tokens(rollups[i].get("canonical_summary", "")))`. -/
def tokenSetAt (rollups : List Rollup) (i : Nat) : List String :=
  dedupAcc [] (tokens ((rollups.getD i default).canonical_summary))

/-- One step of `find` with path compression: `parent[x] = parent[parent[x]]`
then `x = parent[x]`, until `parent[x] == x`. The fuel exceeds any path
length in the forest. -/
def ufFind : Nat → List Nat → Nat → Nat × List Nat
  | 0, parent, x => (x, parent)
  | fuel + 1, parent, x =>
    if parent.getD x x = x then (x, parent)
    else ufFind fuel (parent.set x (parent.getD (parent.getD x x) (parent.getD x x)))
      (parent.getD (parent.getD x x) (parent.getD x x))

/-- `union(a, b)`: the root of `b` is attached under the root of `a`. -/
def ufUnion (parent : List Nat) (a b : Nat) : List Nat :=
  let fa := ufFind (parent.length + 1) parent a
  let fb := ufFind (fa.2.length + 1) fa.2 b
  if fa.1 ≠ fb.1 then fb.2.set fb.1 fa.1 else fb.2

/-- The inner pair loop over `idxs[i+1:]`, threading the pair budget and the
union-find state; stops once the budget is exceeded. -/
def pairInner (rollups : List Rollup) (cfg : MergeConfig) (idx : Nat)
    (ta : List String) : List Nat → Int → List Nat → Int × List Nat
  | [], pairs, parent => (pairs, parent)
  | jdx :: rest, pairs, parent =>
    if cfg.max_pairs_per_block < pairs + 1 then (pairs + 1, parent)
    else if cfg.auto_jaccard ≤ jaccard ta (tokenSetAt rollups jdx) then
      pairInner rollups cfg idx ta rest (pairs + 1) (ufUnion parent idx jdx)
    else pairInner rollups cfg idx ta rest (pairs + 1) parent

/-- The outer pair loop over the block indices; stops once the budget is
exceeded after an inner pass. -/
def pairOuter (rollups : List Rollup) (cfg : MergeConfig) :
    List Nat → Int → List Nat → Int × List Nat
  | [], pairs, parent => (pairs, parent)
  | idx :: rest, pairs, parent =>
    if cfg.max_pairs_per_block <
        (pairInner rollups cfg idx (tokenSetAt rollups idx) rest pairs parent).1 then
      pairInner rollups cfg idx (tokenSetAt rollups idx) rest pairs parent
    else pairOuter rollups cfg rest
      (pairInner rollups cfg idx (tokenSetAt rollups idx) rest pairs parent).1
      (pairInner rollups cfg idx (tokenSetAt rollups idx) rest pairs parent).2

/-- The whole pair loop of one block (skipped for fewer than two members). -/
def blockUnions (rollups : List Rollup) (cfg : MergeConfig) (parent : List Nat)
    (idxs : List Nat) : List Nat :=
  if idxs.length < 2 then parent else (pairOuter rollups cfg idxs 0 parent).2

/-- All blocks, in key order. -/
def allBlockUnions (rollups : List Rollup) (cfg : MergeConfig) : List Nat :=
  (blockKeys rollups).foldl
    (fun parent k => blockUnions rollups cfg parent (blockIdxs rollups k))
    (List.range rollups.length)

/-- `find(idx)` for each index in order, threading the compressed state. -/
def rootsOf (parent : List Nat) (n : Nat) : List Nat :=
  ((List.range n).foldl (fun acc i =>
    (acc.1 ++ [(ufFind (acc.2.length + 1) acc.2 i).1],
     (ufFind (acc.2.length + 1) acc.2 i).2))
    ([], parent)).1

/-- `groups[root].append(r)` on the ordered association-list model. -/
def gIns (acc : List (Nat × List Rollup)) (rt : Nat) (r : Rollup) :
    List (Nat × List Rollup) :=
  match acc with
  | [] => [(rt, [r])]
  | p :: rest => if p.1 == rt then (p.1, p.2 ++ [r]) :: rest else p :: gIns rest rt r

/-- The groups of the union-find partition, in first-root-seen order. -/
def groupsOf (rollups : List Rollup) (parent : List Nat) : List (List Rollup) :=
  (((rootsOf parent rollups.length).zip rollups).foldl
    (fun acc p => gIns acc p.1 p.2) []).map Prod.snd

/-- `Counter.update(d)`: add the counts of `d`, in its iteration order. -/
def cUpdateList (c kvs : List (String × Int)) : List (String × Int) :=
  kvs.foldl (fun acc kv => cIncr acc kv.1 kv.2) c

/-- `max(members, key=lambda m: m.get("count_items", 0))`: first maximum. -/
def maxByCount (members : List Rollup) : Rollup :=
  match members with
  | [] => default
  | m :: rest =>
    rest.foldl (fun best q => if best.count_items < q.count_items then q else best) m

/-- The merged record of a multi-member group (the long arm of the loop of
`_merge_groups`): the canonical member with the aggregate fields written
over it. -/
def merge_members (members : List Rollup) : Rollup :=
  let count_items := (members.map fun m => m.count_items).sum
  let count_sessions := (members.map fun m => m.count_sessions).sum
  let kind_counts := members.foldl (fun acc m => cUpdateList acc m.kind_counts) []
  let kind_v2_counts := members.foldl (fun acc m => cUpdateList acc m.kind_v2_counts) []
  let tag_counts := members.foldl (fun acc m => cUpdateList acc m.tags_top) []
  let sentiment_counts := members.foldl (fun acc m =>
    cIncr acc (if m.sentiment = "" then "neutral" else m.sentiment) 1) []
  let max_sev := (members.foldl (fun acc m =>
    if acc.2 < severity_rank (if m.max_severity = "" then "unknown" else m.max_severity) then
      ((if m.max_severity = "" then "unknown" else m.max_severity),
       severity_rank (if m.max_severity = "" then "unknown" else m.max_severity))
    else acc) ("unknown", -1)).1
  let canonical := maxByCount members
  let tr := tier_for_group max_sev tag_counts kind_counts
  let tags_top := cMostCommon tag_counts 8
  let kind_v2_primary := match cMostCommon kind_v2_counts 1 with
    | p :: _ => p.1
    | [] => "ux_friction"
  let fp := fingerprint_v1 kind_v2_primary canonical.canonical_summary tags_top
  { canonical with
    count_items := count_items
    count_sessions := count_sessions
    kind_counts := kind_counts
    kind_v2_counts := kind_v2_counts
    max_severity := max_sev
    tier := tr.1
    tier_reasons := tr.2
    score := score_group count_items max_sev tag_counts kind_counts
    tags_top := tags_top
    fingerprint_id := fp.2
    fingerprint_text := redact fp.1
    sentiment := match cMostCommon sentiment_counts 1 with
      | p :: _ => p.1
      | [] => "neutral"
    merged_from := some (members.map fun m => m.signature_id) }

/-- `_merge_groups` up to its final stable re-sort: a singleton group passes
its record through unchanged. -/
def merge_groups_core (groups : List (List Rollup)) : List Rollup :=
  groups.map fun members =>
    if members.length = 1 then members.headI else merge_members members

/-- `_merge_rollups_jaccard` up to the final stable re-sort. -/
def merge_rollups_jaccard_core (rollups : List Rollup) (cfg : MergeConfig) :
    List Rollup :=
  if rollups.isEmpty then rollups
  else merge_groups_core (groupsOf rollups (allBlockUnions rollups cfg))

theorem ufFind_range (n m i : Nat) (hi : i < n) :
    ufFind (m + 1) (List.range n) i = (i, List.range n) := by
  have hx : (List.range n).getD i i = i := by
    rw [List.getD_eq_getElem?_getD, List.getElem?_range hi]
    rfl
  simp only [ufFind]
  rw [if_pos hx]

theorem rootsOf_id_aux (n : Nat) : ∀ (l : List Nat), (∀ i ∈ l, i < n) →
    ∀ (acc : List Nat),
    l.foldl (fun acc i =>
      (acc.1 ++ [(ufFind (acc.2.length + 1) acc.2 i).1],
       (ufFind (acc.2.length + 1) acc.2 i).2)) (acc, List.range n)
    = (acc ++ l, List.range n) := by
  intro l
  induction l with
  | nil =>
    intro _ acc
    simp
  | cons i l ih =>
    intro hl acc
    have hi : i < n := hl i (List.mem_cons_self _ _)
    simp only [List.foldl_cons, List.length_range]
    rw [ufFind_range n n i hi]
    rw [ih (fun j hj => hl j (List.mem_cons_of_mem _ hj)) (acc ++ [i])]
    simp

theorem rootsOf_id (n : Nat) : rootsOf (List.range n) n = List.range n := by
  unfold rootsOf
  rw [rootsOf_id_aux n (List.range n) (fun i hi => List.mem_range.mp hi) []]
  simp

theorem pairInner_parent (rollups : List Rollup) (cfg : MergeConfig) (idx : Nat)
    (ta : List String) (js : List Nat) :
    ∀ (pairs : Int) (parent : List Nat),
    (∀ jdx ∈ js, ¬ (cfg.auto_jaccard ≤ jaccard ta (tokenSetAt rollups jdx))) →
    (pairInner rollups cfg idx ta js pairs parent).2 = parent := by
  induction js with
  | nil =>
    intro pairs parent _
    rfl
  | cons jdx rest ih =>
    intro pairs parent hno
    simp only [pairInner]
    split
    · rfl
    · rw [if_neg (hno jdx (List.mem_cons_self _ _))]
      exact ih (pairs + 1) parent (fun j hj => hno j (List.mem_cons_of_mem _ hj))

theorem pairOuter_parent (rollups : List Rollup) (cfg : MergeConfig) (idxs : List Nat) :
    ∀ (pairs : Int) (parent : List Nat),
    idxs.Pairwise (fun a b =>
      ¬ (cfg.auto_jaccard ≤ jaccard (tokenSetAt rollups a) (tokenSetAt rollups b))) →
    (pairOuter rollups cfg idxs pairs parent).2 = parent := by
  induction idxs with
  | nil =>
    intro _ _ _
    rfl
  | cons idx rest ih =>
    intro pairs parent hpw
    rcases List.pairwise_cons.mp hpw with ⟨h1, h2⟩
    have hin := pairInner_parent rollups cfg idx (tokenSetAt rollups idx) rest pairs parent h1
    simp only [pairOuter]
    split
    · exact hin
    · rw [hin]
      exact ih _ parent h2

theorem blockUnions_parent (rollups : List Rollup) (cfg : MergeConfig)
    (parent : List Nat) (idxs : List Nat)
    (hpw : idxs.Pairwise (fun a b =>
      ¬ (cfg.auto_jaccard ≤ jaccard (tokenSetAt rollups a) (tokenSetAt rollups b)))) :
    blockUnions rollups cfg parent idxs = parent := by
  unfold blockUnions
  split
  · rfl
  · exact pairOuter_parent rollups cfg idxs 0 parent hpw

theorem allBlockUnions_id (rollups : List Rollup) (cfg : MergeConfig)
    (H : ∀ i ∈ List.range rollups.length, ∀ j ∈ List.range rollups.length, i ≠ j →
      kindPrimary (rollups.getD i default) = kindPrimary (rollups.getD j default) →
      ¬ (cfg.auto_jaccard ≤ jaccard (tokenSetAt rollups i) (tokenSetAt rollups j))) :
    allBlockUnions rollups cfg = List.range rollups.length := by
  have hblock : ∀ (k : String) (parent : List Nat),
      blockUnions rollups cfg parent (blockIdxs rollups k) = parent := by
    intro k parent
    apply blockUnions_parent
    have hnd : (blockIdxs rollups k).Nodup := List.Nodup.filter _ (List.nodup_range _)
    refine List.Pairwise.imp_of_mem ?_ hnd
    intro a b ha hb hne
    simp only [blockIdxs, List.mem_filter, List.mem_range] at ha hb
    exact H a (List.mem_range.mpr ha.1) b (List.mem_range.mpr hb.1) hne
      ((eq_of_beq ha.2).trans (eq_of_beq hb.2).symm)
  unfold allBlockUnions
  have hfold : ∀ (ks : List String) (p : List Nat),
      ks.foldl (fun parent k => blockUnions rollups cfg parent (blockIdxs rollups k)) p
        = p := by
    intro ks
    induction ks with
    | nil =>
      intro p
      rfl
    | cons k ks ih =>
      intro p
      simp only [List.foldl_cons]
      rw [hblock k p]
      exact ih p
  exact hfold _ _

theorem gIns_fresh (acc : List (Nat × List Rollup)) (rt : Nat) (r : Rollup)
    (h : ∀ p ∈ acc, p.1 ≠ rt) : gIns acc rt r = acc ++ [(rt, [r])] := by
  induction acc with
  | nil => rfl
  | cons q rest ih =>
    simp only [gIns]
    rw [if_neg fun hb => h q (List.mem_cons_self _ _) (eq_of_beq hb)]
    rw [ih (fun p hp => h p (List.mem_cons_of_mem _ hp))]
    rfl

theorem groups_fold_singletons (l : List (Nat × Rollup)) :
    ∀ (acc : List (Nat × List Rollup)),
    (l.map Prod.fst).Nodup →
    (∀ p ∈ acc, ∀ q ∈ l, p.1 ≠ q.1) →
    l.foldl (fun acc p => gIns acc p.1 p.2) acc
      = acc ++ (l.map fun p => (p.1, [p.2])) := by
  induction l with
  | nil =>
    intro acc _ _
    simp
  | cons q l ih =>
    intro acc hnd hdisj
    simp only [List.map_cons] at hnd
    have hnd' : (l.map Prod.fst).Nodup := (List.nodup_cons.mp hnd).2
    have hq1 : q.1 ∉ l.map Prod.fst := (List.nodup_cons.mp hnd).1
    simp only [List.foldl_cons]
    rw [gIns_fresh acc q.1 q.2 (fun p hp => hdisj p hp q (List.mem_cons_self _ _))]
    have hdisj' : ∀ p ∈ acc ++ [(q.1, [q.2])], ∀ x ∈ l, p.1 ≠ x.1 := by
      intro p hp x hx
      rcases List.mem_append.mp hp with h | h
      · exact hdisj p h x (List.mem_cons_of_mem _ hx)
      · have hpq : p = (q.1, [q.2]) := by simpa using h
        rw [hpq]
        intro heq
        exact hq1 (heq ▸ List.mem_map_of_mem Prod.fst hx)
    rw [ih (acc ++ [(q.1, [q.2])]) hnd' hdisj']
    simp

theorem groupsOf_id (rollups : List Rollup) :
    groupsOf rollups (List.range rollups.length) = rollups.map fun r => [r] := by
  unfold groupsOf
  rw [rootsOf_id rollups.length]
  have hnd : (((List.range rollups.length).zip rollups).map Prod.fst).Nodup := by
    rw [List.map_fst_zip _ _ (by simp)]
    exact List.nodup_range _
  rw [groups_fold_singletons _ [] hnd (by intro p hp; simp at hp)]
  simp only [List.nil_append, List.map_map]
  rw [show (Prod.snd ∘ fun p : Nat × Rollup => (p.1, [p.2]))
      = (fun r => [r]) ∘ Prod.snd from rfl]
  rw [← List.map_map]
  rw [List.map_snd_zip _ _ (by simp)]

/-- C8, amended. The lexical merge pass performs no unions when every pair
of distinct records sharing a primary kind has Jaccard similarity below the
auto threshold: it then returns its input list unchanged, and in particular
a second application is a no-op. In general idempotence fails: the per-block
pair budget can leave a similar pair unexamined in the first pass that the
second pass then merges (see the counterexample). -/
theorem c8_merge_idempotent (rollups : List Rollup) (cfg : MergeConfig)
    (H : ∀ i ∈ List.range rollups.length, ∀ j ∈ List.range rollups.length, i ≠ j →
      kindPrimary (rollups.getD i default) = kindPrimary (rollups.getD j default) →
      ¬ (cfg.auto_jaccard ≤ jaccard (tokenSetAt rollups i) (tokenSetAt rollups j))) :
    merge_rollups_jaccard_core rollups cfg = rollups ∧
    merge_rollups_jaccard_core (merge_rollups_jaccard_core rollups cfg) cfg
      = merge_rollups_jaccard_core rollups cfg := by
  have h1 : merge_rollups_jaccard_core rollups cfg = rollups := by
    unfold merge_rollups_jaccard_core
    split
    · rfl
    · rw [allBlockUnions_id rollups cfg H, groupsOf_id]
      unfold merge_groups_core
      rw [List.map_map]
      have hid : ((fun members => if members.length = 1 then members.headI
          else merge_members members) ∘ fun r : Rollup => [r]) = id := by
        funext r
        simp [List.headI]
      rw [hid, List.map_id]
  exact ⟨h1, by rw [h1, h1]⟩

def c8w0 : Rollup := { canonical_summary := "alpha beta", kind_v2_counts := [("ux_friction", 1)] }

def c8w1 : Rollup := { canonical_summary := "zeta", kind_v2_counts := [("ux_friction", 1)] }

theorem c8_merge_idempotent_witness :
    merge_rollups_jaccard_core [c8w0, c8w1] {} = [c8w0, c8w1] :=
  (c8_merge_idempotent [c8w0, c8w1] {} (by decide)).1

def c8Rec (sid summ : String) : Rollup :=
  { signature_id := sid, canonical_summary := summ,
    kind_v2_counts := [("ux_friction", 1)], kind_counts := [("other", 1)],
    count_items := 1, max_severity := "unknown", tier := 3,
    score := ⟨1, 0, false, false, false⟩ }

def c8In : List Rollup :=
  [c8Rec "s0" "alpha beta gamma", c8Rec "s1" "alpha beta gamma", c8Rec "s2" "zeta",
   c8Rec "s3" "eta", c8Rec "s4" "alpha beta gamma delta"]

def c8Cfg : MergeConfig := { max_pairs_per_block := 3 }

/-- C8 counterexample: with a pair budget of 3 per block, five rollups in
one block are examined only in the pairs (0,1), (0,2), (0,3); the similar
pair (0,4) goes unseen, the first pass merges 0 and 1 and returns four
records, and a second pass over that output, whose pair budget now covers
the merged record against record 4, merges again, returning three records:
the merge pass is not idempotent. All records share tier and score key, so
the final stable re-sort of the source returns this very order. -/
theorem c8_counterexample :
    (merge_rollups_jaccard_core c8In c8Cfg).length = 4 ∧
    (merge_rollups_jaccard_core (merge_rollups_jaccard_core c8In c8Cfg) c8Cfg).length
      = 3 := by
  constructor
  · decide
  · decide

end OpenclawTrace
